import Mathlib

/-!
Verification of the pyfrost node-graph wrapper (src/pyfrost/main.py).

The Python module is a façade over the Maya/Bifrost `cmds` command layer.
We embed it shallowly: paths, port names and node types are `String`s,
Python string helpers are modelled on `List Char` by structural recursion,
the host (`cmds`) is an explicit state (`HostState`) carrying the port set,
child listings and oracle functions for host-assigned names, and every
wrapper method is an explicit state-passing function that also returns the
list of host calls it issued (`List HostCall`).  Fallible Python code
returns `Except PyErr`.
-/

set_option maxRecDepth 4000

namespace Pyfrost

/-! Section: Python string primitives

Python `str.split` for a one-character separator coincides with the Mathlib
`List.splitOn` on the character list.  `splitSubF` is a fuel-indexed
Python `s.split(sep)` for a non-empty multi-character separator (the fuel
is always instantiated with the length of the string, which suffices, so
the fuel-exhausted branch is unreachable). -/

/-- Python `sep in s` (substring test), for a list-of-chars needle. -/
def containsSub (sep : List Char) (l : List Char) : Bool :=
  sep.isPrefixOf l ||
    match l with
    | [] => false
    | _ :: rest => containsSub sep rest

/-- Fuel-indexed Python `s.split(sep)` for a non-empty separator. -/
def splitSubF (sep : List Char) : Nat → List Char → List (List Char)
  | _, [] => [[]]
  | 0, l => [l]
  | fuel + 1, a :: rest =>
    if sep.isPrefixOf (a :: rest) && !sep.isEmpty then
      [] :: splitSubF sep fuel ((a :: rest).drop sep.length)
    else
      match splitSubF sep fuel rest with
      | [] => [[a]]
      | p :: ps => (a :: p) :: ps

/-- Python `s.split(sep)` for a non-empty separator. -/
def splitSub (sep l : List Char) : List (List Char) :=
  splitSubF sep l.length l

/-- First occurrence of `c` in `l`: returns the parts before and after it.
`some` exactly when `c` occurs.  This is Python `s.split(c, 1)` when it
yields two pieces. -/
def breakAtChar (c : Char) : List Char → Option (List Char × List Char)
  | [] => none
  | a :: rest =>
    if a = c then some ([], rest)
    else (breakAtChar c rest).map (fun p => (a :: p.1, p.2))

/-- Python `s.replace(old, new)` (non-empty `old`), via
`new.join(s.split(old))`, which is how CPython specifies it. -/
def replaceSub (old new l : List Char) : List Char :=
  List.intercalate new (splitSub old l)

def containsSubS (needle hay : String) : Bool :=
  containsSub needle.toList hay.toList

def pyReplaceS (old new s : String) : String :=
  String.mk (replaceSub old.toList new.toList s.toList)

def pyStartsWith1 (c : Char) (s : String) : Bool :=
  match s.toList with
  | [] => false
  | a :: _ => a == c

def pyEndsWith1 (c : Char) (s : String) : Bool :=
  match s.toList.getLast? with
  | some a => a == c
  | none => false

/-- Python `s[:-1]`. -/
def pyDropLast (s : String) : String :=
  String.mk s.toList.dropLast

/-- Python `s.split(".", 1)[-1]`: the whole string when there is no dot,
otherwise everything after the first dot. -/
def pySplit1Last (c : Char) (s : String) : String :=
  match breakAtChar c s.toList with
  | none => s
  | some p => String.mk p.2

/-- The last non-empty `/`-separated segment of a path, i.e. Python
`[x for x in path.split("/") if x][-1]` — `none` models the `IndexError`
raised when every segment is empty (`Node.name`, main.py:279-282). -/
def pyNameL (l : List Char) : Option (List Char) :=
  ((l.splitOn '/').filter (fun x => !x.isEmpty)).getLast?

def pyName (p : String) : Option String :=
  (pyNameL p.toList).map String.mk

/-- Python `path.rsplit("/", 1)[0] + "/"` (`Node.parent`, main.py:284-287). -/
def pyParent (p : String) : String :=
  let pieces := p.toList.splitOn '/'
  (if pieces.length ≤ 1 then p
   else String.mk (List.intercalate ['/'] pieces.dropLast)) ++ "/"

/-- The `Node.path` setter (main.py:274-277): prefix a `/` when absent. -/
def pathSet (v : String) : String :=
  if pyStartsWith1 '/' v then v else "/" ++ v

/-! Section: Basic lemmas about the string primitives -/

theorem splitSubF_ne_nil (sep : List Char) (fuel : Nat) (l : List Char) :
    splitSubF sep fuel l ≠ [] := by
  induction fuel generalizing l with
  | zero => cases l <;> simp [splitSubF]
  | succ n ih =>
    cases l with
    | nil => simp [splitSubF]
    | cons a rest =>
      simp only [splitSubF]
      split
      · simp
      · split <;> simp

/-- A single-piece split means the piece is the whole string. -/
theorem splitSubF_single (sep : List Char) (fuel : Nat) (l p : List Char)
    (h : splitSubF sep fuel l = [p]) : p = l := by
  induction fuel generalizing l p with
  | zero =>
    cases l with
    | nil => simpa [splitSubF] using h.symm
    | cons a rest => simpa [splitSubF] using h.symm
  | succ n ih =>
    cases l with
    | nil => simpa [splitSubF] using h.symm
    | cons a rest =>
      simp only [splitSubF] at h
      split at h
      · cases hs : splitSubF sep n ((a :: rest).drop sep.length) with
        | nil => exact absurd hs (splitSubF_ne_nil _ _ _)
        | cons q qs => simp [hs] at h
      · split at h
        · rename_i hnil
          exact absurd hnil (splitSubF_ne_nil _ _ _)
        · rename_i q qs hq
          injection h with h1 h2
          subst h2
          have := ih rest q hq
          simp [← h1, this]

/-- If the separator does not occur in the string, splitting is trivial. -/
theorem splitSubF_of_not_contains (sep : List Char) (fuel : Nat) (l : List Char)
    (h : containsSub sep l = false) : splitSubF sep fuel l = [l] := by
  induction fuel generalizing l with
  | zero => cases l <;> simp [splitSubF]
  | succ n ih =>
    cases l with
    | nil => simp [splitSubF]
    | cons a rest =>
      simp only [containsSub, Bool.or_eq_false_iff] at h
      simp only [splitSubF]
      rw [if_neg (by simp [h.1])]
      rw [ih rest h.2]

theorem breakAtChar_eq_none (c : Char) (l : List Char) :
    breakAtChar c l = none ↔ c ∉ l := by
  induction l with
  | nil => simp [breakAtChar]
  | cons a rest ih =>
    simp only [breakAtChar]
    split
    · rename_i h
      subst h
      simp
    · rename_i h
      simp [Option.map_eq_none', ih, Ne.symm h]

/-- The two parts returned by `breakAtChar` recover the string, and the
first part does not contain the character. -/
theorem breakAtChar_spec (c : Char) (l pre post : List Char)
    (h : breakAtChar c l = some (pre, post)) :
    l = pre ++ c :: post ∧ c ∉ pre := by
  induction l generalizing pre post with
  | nil => simp [breakAtChar] at h
  | cons a rest ih =>
    simp only [breakAtChar] at h
    split at h
    · rename_i ha
      subst ha
      obtain ⟨h1, h2⟩ := by simpa using h
      subst h1; subst h2
      simp
    · rename_i ha
      cases hb : breakAtChar c rest with
      | none => simp [hb] at h
      | some q =>
        obtain ⟨q1, q2⟩ := q
        have hf : some ((a :: q1, q2) : List Char × List Char) = some (pre, post) := by
          simpa [hb] using h
        injection hf with hf2
        injection hf2 with h1 h2
        subst h1
        subst h2
        obtain ⟨hrest, hnot⟩ := ih q1 q2 hb
        refine ⟨by simp [hrest], ?_⟩
        simp [hnot, Ne.symm ha]

/-! Section: Lemmas about the last non-empty path segment (`Node.name`) -/

theorem getLast?_cons_of_ne_nil {α : Type} (x : α) (ys : List α) (h : ys ≠ []) :
    (x :: ys).getLast? = ys.getLast? := by
  cases ys with
  | nil => exact absurd rfl h
  | cons y t => exact List.getLast?_cons_cons ..

/-- The last element of `P.filter f` splits `P` into what comes before it
and a tail on which `f` fails everywhere. -/
theorem getLast?_filter_decomp {α : Type} (f : α → Bool) :
    ∀ (P : List α) (s : α), (P.filter f).getLast? = some s →
      ∃ A B, P = A ++ s :: B ∧ (∀ x ∈ B, f x = false) ∧ f s = true := by
  intro P
  induction P with
  | nil => intro s h; simp at h
  | cons x P' ih =>
    intro s h
    cases hfx : f x with
    | false =>
      rw [List.filter_cons_of_neg (by simp [hfx])] at h
      obtain ⟨A, B, h1, h2, h3⟩ := ih s h
      exact ⟨x :: A, B, by simp [h1], h2, h3⟩
    | true =>
      rw [List.filter_cons_of_pos hfx] at h
      cases hF : P'.filter f with
      | nil =>
        rw [hF] at h
        have hs : s = x := by simpa using h.symm
        subst hs
        exact ⟨[], P', rfl, fun x hx => by simpa using List.filter_eq_nil_iff.mp hF x hx, hfx⟩
      | cons q qs =>
        rw [getLast?_cons_of_ne_nil x _ (by simp [hF])] at h
        obtain ⟨A, B, h1, h2, h3⟩ := ih s h
        exact ⟨x :: A, B, by simp [h1], h2, h3⟩

theorem intercalate_cons_of_ne_nil {α : Type} (sep x : List α) (xs : List (List α))
    (h : xs ≠ []) :
    List.intercalate sep (x :: xs) = x ++ sep ++ List.intercalate sep xs := by
  cases xs with
  | nil => exact absurd rfl h
  | cons y ys =>
    simp only [List.intercalate, List.intersperse_cons_cons, List.flatten_cons,
      List.append_assoc]

/-- Joining all-empty pieces with a one-character separator yields a run of
that character. -/
theorem intercalate_all_empty {α : Type} (c : α) :
    ∀ (B : List (List α)), (∀ x ∈ B, x = []) →
      List.intercalate [c] B = List.replicate (B.length - 1) c := by
  intro B
  induction B with
  | nil => intro _; simp [List.intercalate]
  | cons x B' ih =>
    intro h
    have hx : x = [] := h x (by simp)
    subst hx
    cases B' with
    | nil => simp [List.intercalate]
    | cons y B'' =>
      rw [intercalate_cons_of_ne_nil _ _ _ (by simp)]
      rw [ih (fun z hz => h z (by simp [hz]))]
      simp [List.replicate_succ]

theorem intercalate_append_of_ne_nil {α : Type} (sep : List α) :
    ∀ (A C : List (List α)), A ≠ [] → C ≠ [] →
      List.intercalate sep (A ++ C) =
        List.intercalate sep A ++ sep ++ List.intercalate sep C := by
  intro A
  induction A with
  | nil => intro C h _; exact absurd rfl h
  | cons a1 A1 ihA =>
    intro C _ hC
    cases A1 with
    | nil =>
      rw [show ([a1] ++ C) = a1 :: C from rfl, intercalate_cons_of_ne_nil _ _ _ hC]
      simp [List.intercalate]
    | cons b1 B1 =>
      rw [List.cons_append, intercalate_cons_of_ne_nil _ _ _ (by simp),
        intercalate_cons_of_ne_nil _ _ _ (show b1 :: B1 ≠ [] by simp),
        ihA C (by simp) hC]
      simp [List.append_assoc]

theorem intercalate_singleton_head {α : Type} (c : α) (s : List α) (B : List (List α))
    (hB : ∀ x ∈ B, x = []) :
    List.intercalate [c] (s :: B) = s ++ List.replicate B.length c := by
  cases B with
  | nil => simp [List.intercalate]
  | cons y B' =>
    rw [intercalate_cons_of_ne_nil _ _ _ (by simp)]
    rw [intercalate_all_empty c (y :: B') hB]
    simp [List.replicate_succ]

/-- Pieces produced by `splitOn c` never contain `c`. -/
theorem splitOn_pieces (c : Char) :
    ∀ (l : List Char), ∀ p ∈ l.splitOn c, c ∉ p := by
  intro l
  induction l with
  | nil => intro p hp; simp at hp; simp [hp]
  | cons a rest ih =>
    intro p hp
    by_cases hac : a = c
    · rw [List.splitOn, List.splitOnP_cons] at hp
      rw [if_pos (by simp [hac])] at hp
      rcases List.mem_cons.mp hp with h | h
      · simp [h]
      · exact ih p h
    · rw [List.splitOn, List.splitOnP_cons] at hp
      rw [if_neg (by simp [hac])] at hp
      cases hsp : rest.splitOn c with
      | nil => exact absurd hsp (List.splitOnP_ne_nil _ rest)
      | cons q qs =>
        rw [List.splitOn] at hsp
        rw [hsp] at hp
        simp only [List.modifyHead] at hp
        rcases List.mem_cons.mp hp with h | h
        · subst h
          intro hmem
          rcases List.mem_cons.mp hmem with h | h
          · exact hac h.symm
          · exact ih q (by rw [List.splitOn, hsp]; simp) h
        · exact ih p (by rw [List.splitOn, hsp]; simp [h])

/-- Characterisation of a defined `Node.name`: the result is the last
non-empty segment — non-empty, free of separators, followed only by
separators, and preceded by nothing or by a separator. -/
theorem pyNameL_some_spec (l s : List Char) (h : pyNameL l = some s) :
    s ≠ [] ∧ '/' ∉ s ∧
      ∃ k pre, l = pre ++ s ++ List.replicate k '/' ∧
        (pre = [] ∨ pre.getLast? = some '/') := by
  unfold pyNameL at h
  obtain ⟨A, B, hP, hB, hs⟩ := getLast?_filter_decomp _ (l.splitOn '/') s h
  have hsne : s ≠ [] := by
    intro hnil
    rw [hnil] at hs
    simp at hs
  have hmem : s ∈ l.splitOn '/' := by rw [hP]; simp
  have hnoslash : '/' ∉ s := splitOn_pieces '/' l s hmem
  have hBempty : ∀ x ∈ B, x = [] := by
    intro x hx
    have := hB x hx
    simpa using this
  have hrec : List.intercalate ['/'] (l.splitOn '/') = l :=
    List.intercalate_splitOn l '/'
  rw [hP] at hrec
  refine ⟨hsne, hnoslash, ?_⟩
  cases hA : A with
  | nil =>
    rw [hA] at hrec
    simp only [List.nil_append] at hrec
    rw [intercalate_singleton_head '/' s B hBempty] at hrec
    exact ⟨B.length, [], by simp [hrec.symm], Or.inl rfl⟩
  | cons a0 A' =>
    have hAne : A ≠ [] := by rw [hA]; simp
    rw [intercalate_append_of_ne_nil ['/'] A (s :: B) hAne (by simp)] at hrec
    rw [intercalate_singleton_head '/' s B hBempty] at hrec
    refine ⟨B.length, List.intercalate ['/'] A ++ ['/'], by simp [hrec.symm, List.append_assoc], Or.inr ?_⟩
    simp

/-- Python `Node.name` is undefined exactly when the path consists only of
separators. -/
theorem pyNameL_none_iff (l : List Char) :
    pyNameL l = none ↔ ∀ c ∈ l, c = '/' := by
  constructor
  · intro h c hc
    unfold pyNameL at h
    rw [List.getLast?_eq_none_iff] at h
    have hall : ∀ x ∈ l.splitOn '/', x = [] := by
      intro x hx
      have := List.filter_eq_nil_iff.mp h x hx
      simpa using this
    have hrec : List.intercalate ['/'] (l.splitOn '/') = l :=
      List.intercalate_splitOn l '/'
    rw [intercalate_all_empty '/' _ hall] at hrec
    rw [← hrec] at hc
    exact (List.eq_of_mem_replicate hc).symm ▸ rfl
  · intro h
    cases hn : pyNameL l with
    | none => rfl
    | some s =>
      obtain ⟨hsne, hnoslash, k, pre, hl, _⟩ := pyNameL_some_spec l s hn
      cases s with
      | nil => exact absurd rfl hsne
      | cons c0 s' =>
        have : c0 ∈ l := by rw [hl]; simp
        have := h c0 this
        exact absurd this (by intro hh; exact hnoslash (by simp [hh]))

/-! Section: Data model

Python exceptions relevant to the wrapper. -/

inductive PyErr where
  | nameError (msg : String)
  | runtimeError (msg : String)
  | indexError
  | typeError
  | keyError
  | attributeError
  | valueError
  deriving DecidableEq

/-- A JSON value, as produced by `json.load` (main.py:110-119).  Numbers
are modelled as integers; the claims under study never depend on numeric
values. -/
inductive JVal where
  | jnull
  | jbool (b : Bool)
  | jnum (n : Int)
  | jstr (s : String)
  | jarr (xs : List JVal)
  | jobj (kvs : List (String × JVal))

/-- Python truthiness of a JSON value. -/
def JVal.truthy : JVal → Bool
  | .jnull => false
  | .jbool b => b
  | .jnum n => n != 0
  | .jstr s => !(s == "")
  | .jarr xs => !xs.isEmpty
  | .jobj kvs => !kvs.isEmpty

/-- Python `str(v)` for the JSON values above.  Containers are given a
fixed placeholder rendering: the wrapper only ever stringifies strings
(and `None` on degenerate input), so the placeholder never matters to the
claims. -/
def JVal.sOf : JVal → String
  | .jnull => "None"
  | .jbool b => if b then "True" else "False"
  | .jnum n => toString n
  | .jstr s => s
  | .jarr _ => "<list>"
  | .jobj _ => "<dict>"

/-- Python `d.get(k, dflt)`: only dictionaries have `.get`, anything else
raises `AttributeError`. -/
def pyGetD (o : JVal) (k : String) (dflt : JVal) : Except PyErr JVal :=
  match o with
  | .jobj kvs => .ok ((kvs.lookup k).getD dflt)
  | _ => .error .attributeError

/-- Python `d[k]` on a dictionary (`KeyError` when absent, `TypeError` on
non-dictionaries, which is how the degenerate metadata entries fail). -/
def pyIndex (o : JVal) (k : String) : Except PyErr JVal :=
  match o with
  | .jobj kvs =>
    match kvs.lookup k with
    | some v => .ok v
    | none => .error .keyError
  | _ => .error .typeError

/-- Python `x[-1]`: last element of a list, last character of a string. -/
def pyLastItem : JVal → Except PyErr JVal
  | .jarr xs =>
    match xs.getLast? with
    | some v => .ok v
    | none => .error .indexError
  | .jstr s =>
    match s.toList.getLast? with
    | some c => .ok (.jstr (String.mk [c]))
    | none => .error .indexError
  | _ => .error .typeError

/-- Python iteration (`for x in v`): lists yield elements, strings yield
characters, dictionaries yield keys, the rest raise `TypeError`. -/
def pyIter : JVal → Except PyErr (List JVal)
  | .jarr xs => .ok xs
  | .jstr s => .ok (s.toList.map (fun c => .jstr (String.mk [c])))
  | .jobj kvs => .ok (kvs.map (fun kv => .jstr kv.1))
  | _ => .error .typeError

/-- Python `name` arguments handed to `Node.rename` (it only distinguishes
falsy/truthy and compares with strings): `None` becomes `none`. -/
def JVal.optStr : JVal → Option String
  | .jnull => none
  | .jstr s => some s
  | v => some v.sOf

/-- One call into the host command layer (`maya.cmds`).  Queries are
recorded as well as mutations. -/
inductive HostCall where
  | listPorts (board node : String)
  | queryPortDataType (board node port : String)
  | queryTypeName (board node : String)
  | createPort (board node key port datatype : String) (viaCompound : Bool)
  | setPortDefault (board node port value : String) (viaCompound : Bool)
  | vnnConnect (board src dst : String)
  | vnnDisconnect (board src dst : String)
  | listNodes (board parent : String)
  | renameNode (board parent oldName newName : String)
  | createCompound (board path : String)
  | addNode (board path type_ : String)
  | setMetaData (board node key value : String)
  deriving DecidableEq

/-- The host (Bifrost) state, as far as the wrapper can observe it.
Deterministic behaviour the wrapper relies on (a created port is
subsequently listed) is concrete; host-chosen data (assigned node names,
listings right after a rename, reported types) are oracle functions that
theorems quantify over.  The `uuidCtr` counter is the oracle replacing
`uuid.uuid4()`. -/
structure HostState where
  ports : List (String × String)
  connections : List (String × String)
  portType : String → String → String
  nodeTypeRaw : String → String
  children : String → List String
  renameListing : String → String → String → List String
  newCompound : String → String
  newNode : String → String → List String
  uuidCtr : Nat

/-- A `Node` façade object: its board, stored path, and container flag
(main.py:167-183). -/
structure PNode where
  board : String
  path : String
  is_compound : Bool
  deriving DecidableEq

/-- An `Attribute` façade object (main.py:306-316). -/
structure PAttr where
  node : PNode
  name : String
  deriving DecidableEq

/-- Python `Attribute.plug` (main.py:316): `"{}.{}".format(node, attribute)`. -/
def PAttr.plug (a : PAttr) : String :=
  a.node.path ++ "." ++ a.name

/-- Result of running a wrapper method: the Python result (or the raised
exception), the host state afterwards, and the host calls issued in
order. -/
structure Res (α : Type) where
  val : Except PyErr α
  st : HostState
  trace : List HostCall

/-! Section: Attribute façade operations (main.py:306-392) -/

/-- Python `Node._fix_type` (main.py:251-257): re-join a `::`-suffixed type with a
comma when the last `::`-piece has no comma.  `rsplit("::", 1)` is the
split at the last occurrence. -/
def pyRSplit1S (sep s : String) : List String :=
  let pieces := (splitSub sep.toList s.toList).map String.mk
  if pieces.length ≤ 1 then [s]
  else [String.intercalate sep pieces.dropLast, (pieces.getLast?).getD s]

def pyFixType (t : String) : String :=
  let split := pyRSplit1S "::" t
  if !containsSubS "," ((split.getLast?).getD "") then String.intercalate "," split
  else t

/-- The `NODE_LIBS` table (main.py:18-40). -/
def NODE_LIBS : List (String × String) :=
  [("float", "Core::Constants,float"),
   ("string", "Core::Constants,string"),
   ("number_to_string", "Core::String,number_to_string"),
   ("build_array", "Core::Array,build_array"),
   ("vector3_to_scalar", "Core::Conversion,vector3_to_scalar"),
   ("scalar_to_vector3", "Core::Conversion,scalar_to_vector3"),
   ("scalar_to_vector4", "Core::Conversion,scalar_to_vector4"),
   ("add", "Core::Math,add"),
   ("subtract", "Core::Math,subtract"),
   ("multiply", "Core::Math,multiply"),
   ("divide", "Core::Math,divide"),
   ("power", "Core::Math,power"),
   ("square_root", "Core::Math,square_root"),
   ("get_point_position", "Geometry::Properties,get_point_position"),
   ("set_geo_property", "Geometry::Properties,set_geo_property")]

/-- What `vnnNode(..., listPorts=True)` reports: each port of the node,
rendered as `"<node>.<port>"`. -/
def hostListPorts (st : HostState) (node : String) : List String :=
  (st.ports.filter (fun pr => pr.1 == node)).map (fun pr => pr.1 ++ "." ++ pr.2)

/-- Python `Attribute.exists` (main.py:332-338): list the ports, strip everything
up to the first dot, and test membership of the attribute name. -/
def attrExists (st : HostState) (a : PAttr) : Bool :=
  ((hostListPorts st a.node.path).map (fun s => pySplit1Last '.' s)).contains a.name

/-- Python `Node.type` (main.py:290-294): host-reported type, run through
`_fix_type`. -/
def nodeTypeOf (st : HostState) (path : String) : String :=
  pyFixType (st.nodeTypeRaw path)

/-- Python `Attribute.set` (main.py:360-367).  Never raises; returns the state
and the issued host calls.  Note the Python re-evaluates `self.node.type`
in the fall-through branch, issuing a second type query. -/
def attrSet (st : HostState) (a : PAttr) (value : JVal) :
    HostState × List HostCall :=
  let board := a.node.board
  let parent := pyParent a.node.path
  if parent == "/" then
    let t := nodeTypeOf st a.node.path
    let tr0 := [HostCall.queryTypeName board a.node.path]
    if t == "" then
      (st, tr0 ++ [HostCall.setPortDefault board parent a.name value.sOf true])
    else
      let target := if t == "" then parent else a.node.path
      (st, tr0 ++ [HostCall.queryTypeName board a.node.path,
        HostCall.setPortDefault board target a.name value.sOf false])
  else
    let t := nodeTypeOf st a.node.path
    let target := if t == "" then parent else a.node.path
    (st, [HostCall.queryTypeName board a.node.path,
      HostCall.setPortDefault board target a.name value.sOf false])

/-- The host state after `createInputPort`/`createOutputPort` registered
the port. -/
def addedPort (st : HostState) (a : PAttr) : HostState :=
  {st with ports := st.ports ++ [(a.node.path, a.name)]}

/-- Python `Attribute.add` (main.py:369-378): validate the direction, create the
port through `vnnCompound` or `vnnNode` depending on the owner, then set
the value only when it is truthy. -/
def attrAdd (st : HostState) (a : PAttr) (direction datatype : String)
    (value : JVal) : Res Unit :=
  if !(direction == "input" || direction == "output") then
    ⟨.error (.nameError "direction must be either \"input\" or \"output\""), st, []⟩
  else
    let key := if direction == "input" then "createInputPort" else "createOutputPort"
    let st1 : HostState := addedPort st a
    let tr := [HostCall.createPort a.node.board a.node.path key a.name datatype
      a.node.is_compound]
    if value.truthy then
      let r := attrSet st1 a value
      ⟨.ok (), r.1, tr ++ r.2⟩
    else ⟨.ok (), st1, tr⟩

/-- Python `Attribute.connect` (main.py:380-388). -/
def attrConnect (st : HostState) (a t : PAttr) : Res Unit :=
  let board := a.node.board
  let r1 : Res Unit :=
    if attrExists st a then ⟨.ok (), st, [HostCall.listPorts board a.node.path]⟩
    else
      let r := attrAdd st a "output" "auto" .jnull
      ⟨r.val, r.st, [HostCall.listPorts board a.node.path] ++ r.trace⟩
  match r1.val with
  | .error e => ⟨.error e, r1.st, r1.trace⟩
  | .ok _ =>
    let st1 := r1.st
    let r2 : Res Unit :=
      if nodeTypeOf st1 t.node.path == "" then
        let selfType := st1.portType a.node.path a.name
        let r := attrAdd st1 t "input" selfType .jnull
        ⟨r.val, r.st, r1.trace ++ [HostCall.queryTypeName t.node.board t.node.path,
          HostCall.queryPortDataType board a.node.path a.name] ++ r.trace⟩
      else ⟨.ok (), st1, r1.trace ++ [HostCall.queryTypeName t.node.board t.node.path]⟩
    match r2.val with
    | .error e => ⟨.error e, r2.st, r2.trace⟩
    | .ok _ =>
      let st2 := r2.st
      let r3 : Res Unit :=
        if attrExists st2 t then
          ⟨.ok (), st2, r2.trace ++ [HostCall.listPorts t.node.board t.node.path]⟩
        else
          let r := attrAdd st2 t "input" "auto" .jnull
          ⟨r.val, r.st, r2.trace ++ [HostCall.listPorts t.node.board t.node.path]
            ++ r.trace⟩
      match r3.val with
      | .error e => ⟨.error e, r3.st, r3.trace⟩
      | .ok _ =>
        ⟨.ok (),
          {r3.st with connections := r3.st.connections ++ [(a.plug, t.plug)]},
          r3.trace ++ [HostCall.vnnConnect board a.plug t.plug]⟩

/-- Python `Attribute.disconnect` (main.py:390-392). -/
def attrDisconnect (st : HostState) (a t : PAttr) : Res Unit :=
  ⟨.ok (),
    {st with connections := st.connections.filter (fun c => c != (a.plug, t.plug))},
    [HostCall.vnnDisconnect a.node.board a.plug t.plug]⟩

/-- Pointwise update of the host child-listing map. -/
def updChildren (st : HostState) (key : String) (val : List String) : HostState :=
  {st with children := fun p => if p == key then val else st.children p}

/-! Section: Node façade operations (main.py:167-303) -/

/-- Python `Node.__div__` (main.py:194-196): concatenate with a `/` separator
unless the right-hand side starts with `.` or `/`. -/
def pyDiv (n : PNode) (value : String) : String :=
  n.path ++ (if pyStartsWith1 '.' value || pyStartsWith1 '/' value then "" else "/")
    ++ value

/-- Python `Node.node` (main.py:259-262): join with `/`, then collapse `//`, then
construct the child node (whose path goes through the setter). -/
def nodeChild (n : PNode) (p : String) : PNode :=
  ⟨n.board, pathSet (pyReplaceS "//" "/" (n.path ++ "/" ++ p)), false⟩

/-- Python `list(set(new) - set(old))`: the members of `new` that are not
in `old`, deduplicated.  CPython set iteration order is unspecified; we
model it as order of first appearance, which the claims never depend on
beyond membership. -/
def pySetDiff (new old : List String) : List String :=
  (new.filter (fun x => !(old.contains x))).dedup

/-- Python `Node.rename` (main.py:238-249): no-op on a falsy or unchanged name,
otherwise diff the host sibling listing before and after the rename to
recover the host-assigned name, and store `parent + name` back through
the path setter.  An empty diff reproduces the Python `IndexError` of
`list(...)[0]`. -/
def nodeRename (st : HostState) (n : PNode) (name : Option String) :
    Res (Option String × PNode) :=
  let truthyName := match name with | none => false | some s => !(s == "")
  if !truthyName then ⟨.ok (none, n), st, []⟩
  else
    match pyName n.path with
    | none => ⟨.error .indexError, st, []⟩
    | some cur =>
      let s := name.getD ""
      if cur == s then ⟨.ok (none, n), st, []⟩
      else
        let parent := pyParent n.path
        let allNodes := st.children parent
        let st1 : HostState := updChildren st parent (st.renameListing parent cur s)
        let newNodes := st1.children parent
        let tr := [HostCall.listNodes n.board parent,
          HostCall.renameNode n.board parent cur s,
          HostCall.listNodes n.board parent]
        match (pySetDiff newNodes allNodes).head? with
        | none => ⟨.error .indexError, st1, tr⟩
        | some d =>
          let newPath := pathSet (parent ++ d)
          ⟨.ok (some newPath, {n with path := newPath}), st1, tr⟩

/-- The tail of `Node._create` (main.py:234-236): tag the new node with a
UUID (the random UUID is modelled by the `uuidCtr` oracle) and apply the
optional rename. -/
def finishCreate (st : HostState) (n : PNode) (name : Option String)
    (tr0 : List HostCall) : Res PNode :=
  let u := "UUID-" ++ toString st.uuidCtr
  let st1 : HostState := {st with uuidCtr := st.uuidCtr + 1}
  let tr1 := tr0 ++ [HostCall.setMetaData n.board n.path "UUID" u]
  let rr := nodeRename st1 n name
  match rr.val with
  | .error e => ⟨.error e, rr.st, tr1 ++ rr.trace⟩
  | .ok (_, n2) => ⟨.ok n2, rr.st, tr1 ++ rr.trace⟩

/-- Python `Node._create` (main.py:215-236).  For the sentinel type `"compound"`
the host returns the new node name directly; otherwise `addNode` returns
a list whose head is taken (`IndexError` when empty).  A falsy node
string raises the `RuntimeError` of main.py:230-232 (message paraphrased
without quotes). -/
def nodeCreate (st : HostState) (n : PNode) (nodetype : String)
    (name : Option String) : Res PNode :=
  let path := n.path
  if nodetype == "compound" then
    let ret := st.newCompound path
    let st1 : HostState := updChildren st path (st.children path ++ [ret])
    let tr1 := [HostCall.createCompound n.board path]
    if ret == "" then
      ⟨.error (.runtimeError ("Cant create node " ++ path ++ " Type: compound")),
        st1, tr1⟩
    else
      finishCreate st1 {n with path := pathSet ret, is_compound := true} name tr1
  else
    let ft := pyFixType nodetype
    let type_ := match NODE_LIBS.lookup ft with
      | some v => n.board ++ "," ++ v
      | none => n.board ++ "," ++ ft
    let sep := if pyEndsWith1 '/' path then "" else "/"
    let retList := st.newNode path type_
    let st1 : HostState := updChildren st path (st.children path ++ retList)
    let tr1 := [HostCall.addNode n.board path type_]
    match retList.head? with
    | none => ⟨.error .indexError, st1, tr1⟩
    | some nm =>
      let nodeStr := path ++ sep ++ nm
      if nodeStr == "" then
        ⟨.error (.runtimeError ("Cant create node " ++ path ++ " Type: " ++ nodetype)),
          st1, tr1⟩
      else
        finishCreate st1 {n with path := pathSet nodeStr} name tr1

/-- Python `Node.__init__` with a node type (main.py:170-183): bind the path via
the setter, then `_create`. -/
def nodeConstruct (st : HostState) (board parent nodetype : String)
    (name : Option String) : Res PNode :=
  nodeCreate st ⟨board, pathSet parent, false⟩ nodetype name

/-- Python `Node.create_node` (main.py:209-213): only compounds may host new
nodes. -/
def nodeCreateChild (st : HostState) (n : PNode) (type_ : String)
    (name : Option String) : Res PNode :=
  if n.is_compound then nodeConstruct st n.board n.path type_ name
  else ⟨.error (.runtimeError "Can only add nodes to compounds!"), st, []⟩

/-- Python `Node.set_metadata` (main.py:301-303). -/
def nodeSetMetadata (st : HostState) (n : PNode) (k v : String) :
    HostState × List HostCall :=
  (st, [HostCall.setMetaData n.board n.path k v])

/-! Section: Graph façade operations (main.py:46-164) -/

inductive NodeOrAttr where
  | nodeRef (n : PNode)
  | attrRef (a : PAttr)
  deriving DecidableEq

/-- Python `Graph.get` (main.py:99-104): a value with a dot is split — after
collapsing `.first.` to `.` — into a node path and an attribute name;
otherwise the value names a node.  Both go through the `Node` path
setter.  The `ValueError` models the tuple-unpacking failure when the
replaced string has no dot. -/
def graphGet (board : String) (value : String) : Except PyErr NodeOrAttr :=
  if containsSubS "." value then
    let replaced := pyReplaceS ".first." "." value
    match breakAtChar '.' replaced.toList with
    | none => .error .valueError
    | some p =>
      .ok (.attrRef ⟨⟨board, pathSet (String.mk p.1), false⟩, String.mk p.2⟩)
  else .ok (.nodeRef ⟨board, pathSet value, false⟩)

/-- Python `Graph.node` (main.py:106-108). -/
def graphNode (board : String) (parts : List String) : PNode :=
  ⟨board, pathSet (String.intercalate "/" parts), false⟩

/-! Section: `Graph.from_json` (main.py:110-164)

The four replay sections, one step function per entry kind, sequenced by
`runSteps`.  The JSON string fields are read through `JVal.sOf`
(degenerate non-string fields are stringified; the wrapper then fails on
them exactly where Python would reach an invalid host argument or an
exception — see the individual step functions). -/

/-- Sequence a step function over the entries of a section, stopping at
the first exception, concatenating traces in order. -/
def runSteps (step : HostState → JVal → Res Unit) :
    HostState → List JVal → Res Unit
  | st, [] => ⟨.ok (), st, []⟩
  | st, e :: rest =>
    let r := step st e
    match r.val with
    | .error er => ⟨.error er, r.st, r.trace⟩
    | .ok _ =>
      let r2 := runSteps step r.st rest
      ⟨r2.val, r2.st, r.trace ++ r2.trace⟩

/-- One `ports` entry (main.py:125-129). -/
def portStep (c : PNode) (st : HostState) (e : JVal) : Res Unit :=
  match pyGetD e "portName" .jnull with
  | .error er => ⟨.error er, st, []⟩
  | .ok nameJ =>
    match pyGetD e "portDirection" .jnull with
    | .error er => ⟨.error er, st, []⟩
    | .ok dirJ =>
      match pyGetD e "portType" (.jstr "auto") with
      | .error er => ⟨.error er, st, []⟩
      | .ok typeJ =>
        attrAdd st ⟨c, nameJ.sOf⟩ dirJ.sOf typeJ.sOf .jnull

def runPortsSec (st : HostState) (c : PNode) (data : JVal) : Res Unit :=
  match pyGetD data "ports" (.jarr []) with
  | .error er => ⟨.error er, st, []⟩
  | .ok pj =>
    match pyIter pj with
    | .error er => ⟨.error er, st, []⟩
    | .ok lst => runSteps (portStep c) st lst

/-- The `multiInPortNames` loop of a node entry (main.py:138-139). -/
def multiInStep (node : PNode) (st : HostState) (p : JVal) : Res Unit :=
  attrAdd st ⟨node, p.sOf⟩ "input" "auto" .jnull

/-- The `metadata` loop of a node entry (main.py:140-141). -/
def metadataStep (node : PNode) (st : HostState) (m : JVal) : Res Unit :=
  match pyIndex m "metaName" with
  | .error er => ⟨.error er, st, []⟩
  | .ok mn =>
    match pyIndex m "metaValue" with
    | .error er => ⟨.error er, st, []⟩
    | .ok mv =>
      let r := nodeSetMetadata st node mn.sOf mv.sOf
      ⟨.ok (), r.1, r.2⟩

/-- One `compoundNodes` entry (main.py:132-141): infer a constant type
when `nodeType` is falsy, create the node under the compound, then add
the multi-input ports and the metadata. -/
def nodeStep (board : String) (compound : PNode) (st : HostState) (e : JVal) :
    Res Unit :=
  match pyGetD e "nodeName" .jnull with
  | .error er => ⟨.error er, st, []⟩
  | .ok nameJ =>
    match pyGetD e "nodeType" .jnull with
    | .error er => ⟨.error er, st, []⟩
    | .ok typeJ =>
      let typeR : Except PyErr String :=
        if typeJ.truthy then .ok typeJ.sOf
        else
          match pyGetD e "valueType" .jnull with
          | .error er => .error er
          | .ok (.jstr s) => .ok ("Core::Constants," ++ s)
          | .ok _ => .error .typeError
      match typeR with
      | .error er => ⟨.error er, st, []⟩
      | .ok type_ =>
        let rn := nodeConstruct st board compound.path type_ nameJ.optStr
        match rn.val with
        | .error er => ⟨.error er, rn.st, rn.trace⟩
        | .ok node =>
          match pyGetD e "multiInPortNames" (.jarr []) with
          | .error er => ⟨.error er, rn.st, rn.trace⟩
          | .ok mj =>
            match pyIter mj with
            | .error er => ⟨.error er, rn.st, rn.trace⟩
            | .ok ports =>
              let rm := runSteps (multiInStep node) rn.st ports
              match rm.val with
              | .error er => ⟨.error er, rm.st, rn.trace ++ rm.trace⟩
              | .ok _ =>
                match pyGetD e "metadata" (.jarr []) with
                | .error er => ⟨.error er, rm.st, rn.trace ++ rm.trace⟩
                | .ok dj =>
                  match pyIter dj with
                  | .error er => ⟨.error er, rm.st, rn.trace ++ rm.trace⟩
                  | .ok metas =>
                    let rd := runSteps (metadataStep node) rm.st metas
                    ⟨rd.val, rd.st, rn.trace ++ rm.trace ++ rd.trace⟩

def runNodesSec (st : HostState) (board : String) (compound : PNode)
    (data : JVal) : Res Unit :=
  match pyGetD data "compoundNodes" (.jarr []) with
  | .error er => ⟨.error er, st, []⟩
  | .ok nj =>
    match pyIter nj with
    | .error er => ⟨.error er, st, []⟩
    | .ok lst => runSteps (nodeStep board compound) st lst

/-- One `connections` entry (main.py:144-147).  When `Graph.get` returns
a bare node for the source, calling `connect` on it raises `TypeError`
(the looked-up `connect` is an `Attribute` object, not callable); when it
does so for the target, `connect` runs until `target.node.type` fails
with `AttributeError`, after the source-existence step. -/
def connStep (board : String) (compound : PNode) (st : HostState) (e : JVal) :
    Res Unit :=
  match pyGetD e "source" .jnull with
  | .error er => ⟨.error er, st, []⟩
  | .ok sJ =>
    match graphGet board (pyDiv compound sJ.sOf) with
    | .error er => ⟨.error er, st, []⟩
    | .ok srcR =>
      match pyGetD e "target" .jnull with
      | .error er => ⟨.error er, st, []⟩
      | .ok tJ =>
        match graphGet board (pyDiv compound tJ.sOf) with
        | .error er => ⟨.error er, st, []⟩
        | .ok tgtR =>
          match srcR, tgtR with
          | .attrRef sa, .attrRef ta => attrConnect st sa ta
          | .nodeRef _, _ => ⟨.error .typeError, st, []⟩
          | .attrRef sa, .nodeRef _ =>
            let r1 : Res Unit :=
              if attrExists st sa then
                ⟨.ok (), st, [HostCall.listPorts board sa.node.path]⟩
              else
                let r := attrAdd st sa "output" "auto" .jnull
                ⟨r.val, r.st, [HostCall.listPorts board sa.node.path] ++ r.trace⟩
            ⟨.error .attributeError, r1.st, r1.trace⟩

def runConnsSec (st : HostState) (board : String) (compound : PNode)
    (data : JVal) : Res Unit :=
  match pyGetD data "connections" (.jarr []) with
  | .error er => ⟨.error er, st, []⟩
  | .ok cj =>
    match pyIter cj with
    | .error er => ⟨.error er, st, []⟩
    | .ok lst => runSteps (connStep board compound) st lst

/-- Python `"Math::float" in type_`. -/
def pyInStr (needle : String) (hay : JVal) : Except PyErr Bool :=
  match hay with
  | .jstr s => .ok (containsSubS needle s)
  | .jarr xs =>
    .ok (xs.any (fun x => match x with | .jstr s => s == needle | _ => false))
  | .jobj kvs => .ok (kvs.any (fun kv => kv.1 == needle))
  | _ => .error .typeError

/-- Python `[x[:-1] for x in value.values()]` over string values (non-strings
fail on the later `join`). -/
def sliceVals : List JVal → Except PyErr (List String)
  | [] => .ok []
  | .jstr s :: rest =>
    match sliceVals rest with
    | .error er => .error er
    | .ok xs => .ok (pyDropLast s :: xs)
  | _ :: _ => .error .typeError

/-- One `values` entry (main.py:150-162): reformat the value by declared
type — `float` strips one trailing `f`, `Math::float*` renders the dict
values in braces, anything else is stringified — then set it on the
attribute named by `valueName`. -/
def valueStep (board : String) (compound : PNode) (st : HostState) (e : JVal) :
    Res Unit :=
  match pyGetD e "valueName" .jnull with
  | .error er => ⟨.error er, st, []⟩
  | .ok nameJ =>
    match pyGetD e "valueType" .jnull with
    | .error er => ⟨.error er, st, []⟩
    | .ok typeJ =>
      match pyGetD e "value" .jnull with
      | .error er => ⟨.error er, st, []⟩
      | .ok valueJ =>
        let fmtR : Except PyErr String :=
          if (match typeJ with | .jstr s => s == "float" | _ => false) then
            match valueJ with
            | .jstr s => .ok (if pyEndsWith1 'f' s then pyDropLast s else s)
            | _ => .error .attributeError
          else
            match pyInStr "Math::float" typeJ with
            | .error er => .error er
            | .ok true =>
              match valueJ with
              | .jobj kvs =>
                match sliceVals (kvs.map (fun kv => kv.2)) with
                | .error er => .error er
                | .ok pieces =>
                  .ok ("\x7b" ++ String.intercalate "," pieces ++ "\x7d")
              | _ => .error .attributeError
            | .ok false => .ok valueJ.sOf
        match fmtR with
        | .error er => ⟨.error er, st, []⟩
        | .ok fmtVal =>
          match graphGet board (pyDiv compound nameJ.sOf) with
          | .error er => ⟨.error er, st, []⟩
          | .ok (.attrRef a) =>
            let r := attrSet st a (.jstr fmtVal)
            ⟨.ok (), r.1, r.2⟩
          | .ok (.nodeRef _) => ⟨.error .typeError, st, []⟩

def runValuesSec (st : HostState) (board : String) (compound : PNode)
    (data : JVal) : Res Unit :=
  match pyGetD data "values" (.jarr []) with
  | .error er => ⟨.error er, st, []⟩
  | .ok vj =>
    match pyIter vj with
    | .error er => ⟨.error er, st, []⟩
    | .ok lst => runSteps (valueStep board compound) st lst

/-- main.py:122: `self.create_node("compound", name="paintDelta")`. -/
def createMainCompound (st : HostState) (board : String) : Res PNode :=
  nodeConstruct st board "/" "compound" (some "paintDelta")

/-- The replay of one truthy compound description (the body of
`Graph.from_json` after the early return, main.py:121-164): create the
hosting compound, then run the four sections in order, concatenating the
traces. -/
def replayCompound (st : HostState) (board : String) (desc : JVal) :
    Res (Option PNode) :=
  let rc := createMainCompound st board
  match rc.val with
        | .error er => ⟨.error er, rc.st, rc.trace⟩
        | .ok compound =>
          let rp := runPortsSec rc.st compound desc
          match rp.val with
          | .error er => ⟨.error er, rp.st, rc.trace ++ rp.trace⟩
          | .ok _ =>
            let rn := runNodesSec rp.st board compound desc
            match rn.val with
            | .error er => ⟨.error er, rn.st, rc.trace ++ rp.trace ++ rn.trace⟩
            | .ok _ =>
              let rcn := runConnsSec rn.st board compound desc
              match rcn.val with
              | .error er =>
                ⟨.error er, rcn.st, rc.trace ++ rp.trace ++ rn.trace ++ rcn.trace⟩
              | .ok _ =>
                let rv := runValuesSec rcn.st board compound desc
                match rv.val with
                | .error er =>
                  ⟨.error er, rv.st,
                    rc.trace ++ rp.trace ++ rn.trace ++ rcn.trace ++ rv.trace⟩
                | .ok _ =>
                  ⟨.ok (some compound), rv.st,
                    rc.trace ++ rp.trace ++ rn.trace ++ rcn.trace ++ rv.trace⟩

/-- Python `Graph.from_json` (main.py:110-164).  `fileData = none` models a
missing file (the Python reads an empty document in that case);
otherwise the parsed JSON document.  A falsy compound description
returns `None` before any host call. -/
def fromJson (st : HostState) (board : String) (fileData : Option JVal) :
    Res (Option PNode) :=
  let data := fileData.getD (.jobj [])
  match pyGetD data "compounds" (.jarr [.jnull]) with
  | .error er => ⟨.error er, st, []⟩
  | .ok comps =>
    match pyLastItem comps with
    | .error er => ⟨.error er, st, []⟩
    | .ok desc =>
      if !desc.truthy then ⟨.ok none, st, []⟩
      else replayCompound st board desc

/-! Section: Concrete host state used by the witnesses -/

def stEx : HostState :=
  { ports := [("/n1", "out")],
    connections := [],
    portType := fun _ _ => "float",
    nodeTypeRaw := fun _ => "Core::Math,add",
    children := fun p => if p == "/" then ["node1"] else [],
    renameListing := fun _ _ new => ["node1", new],
    newCompound := fun _ => "compound1",
    newNode := fun _ _ => ["add1"],
    uuidCtr := 0 }

/-! Section: Claims -/

/-- C7: `Node.create_node(type, name)` delegates to `Node` construction
under the path of the node only when the node is a compound; otherwise it
raises `RuntimeError` and issues no host call (and leaves the host state
untouched). -/
theorem c7_create_node_guard (st : HostState) (n : PNode) (ty : String)
    (nm : Option String) :
    (n.is_compound = false →
      nodeCreateChild st n ty nm =
        ⟨.error (.runtimeError "Can only add nodes to compounds!"), st, []⟩) ∧
    (n.is_compound = true →
      nodeCreateChild st n ty nm = nodeConstruct st n.board n.path ty nm) := by
  constructor
  · intro h
    simp [nodeCreateChild, h]
  · intro h
    simp [nodeCreateChild, h]

/-- Witness for C7: a non-compound node rejects `create_node` with the
`RuntimeError`, no host call issued. -/
theorem c7_create_node_guard_witness :
    nodeCreateChild stEx ⟨"b", "/x", false⟩ "add" none =
      ⟨.error (.runtimeError "Can only add nodes to compounds!"), stEx, []⟩ :=
  (c7_create_node_guard stEx ⟨"b", "/x", false⟩ "add" none).1 rfl

/-- C8: `Attribute.add(direction, datatype, value)` raises `NameError`
before any host call when the direction is neither `"input"` nor
`"output"`; a valid direction creates the port with the corresponding
host key (`createInputPort`/`createOutputPort`) and the given datatype
(the Python default argument is `"auto"`), and a `set` follows exactly
when the value is truthy. -/
theorem c8_add_direction (st : HostState) (a : PAttr) (d dt : String) (v : JVal) :
    (d ≠ "input" → d ≠ "output" →
      attrAdd st a d dt v =
        ⟨.error (.nameError "direction must be either \"input\" or \"output\""),
          st, []⟩) ∧
    ((attrAdd st a "input" dt v).val = .ok () ∧
      (attrAdd st a "input" dt v).trace =
        HostCall.createPort a.node.board a.node.path "createInputPort" a.name dt
          a.node.is_compound ::
          (if v.truthy then (attrSet (addedPort st a) a v).2 else [])) ∧
    ((attrAdd st a "output" dt v).val = .ok () ∧
      (attrAdd st a "output" dt v).trace =
        HostCall.createPort a.node.board a.node.path "createOutputPort" a.name dt
          a.node.is_compound ::
          (if v.truthy then (attrSet (addedPort st a) a v).2 else [])) := by
  refine ⟨?_, ?_, ?_⟩
  · intro h1 h2
    simp [attrAdd, h1, h2]
  · cases hv : v.truthy <;> simp [attrAdd, hv]
  · cases hv : v.truthy <;> simp [attrAdd, hv]

/-- Witness for C8: the direction `"up"` is rejected with `NameError`
before any host call. -/
theorem c8_add_direction_witness :
    attrAdd stEx ⟨⟨"b", "/n1", false⟩, "p"⟩ "up" "auto" .jnull =
      ⟨.error (.nameError "direction must be either \"input\" or \"output\""),
        stEx, []⟩ :=
  (c8_add_direction stEx ⟨⟨"b", "/n1", false⟩, "p"⟩ "up" "auto" .jnull).1
    (by decide) (by decide)

/-- C9: `Node.name` is partial at the public interface: it is `none`
(Python raises `IndexError`) exactly when the stored path consists only
of separators — in particular the root path `"/"` — and otherwise yields
the last non-empty segment: a non-empty separator-free string followed in
the path only by separators and preceded by nothing or by a separator. -/
theorem c9_name_undefined (p : String) :
    (pyName p = none ↔ ∀ c ∈ p.toList, c = '/') ∧
    pyName "/" = none ∧
    (∀ s, pyName p = some s →
      s ≠ "" ∧ '/' ∉ s.toList ∧
        ∃ k pre, p.toList = pre ++ s.toList ++ List.replicate k '/' ∧
          (pre = [] ∨ pre.getLast? = some '/')) := by
  refine ⟨?_, by decide, ?_⟩
  · unfold pyName
    rw [Option.map_eq_none']
    exact pyNameL_none_iff p.toList
  · intro s hs
    unfold pyName at hs
    obtain ⟨sl, hl, hsl⟩ := Option.map_eq_some'.mp hs
    obtain ⟨hne, hnos, k, pre, hdecomp, hpre⟩ := pyNameL_some_spec p.toList sl hl
    have htol : s.toList = sl := by rw [← hsl]; rfl
    refine ⟨?_, by rw [htol]; exact hnos, k, pre, by rw [htol]; exact hdecomp, hpre⟩
    intro hempty
    apply hne
    have := congrArg String.toList hempty
    rw [htol] at this
    simpa using this

/-- Witness for C9: `/a/b` has name `b`, with the advertised structure. -/
theorem c9_name_undefined_witness :
    pyName "/a/b" = some "b" ∧
      ("b" ≠ "" ∧ '/' ∉ "b".toList ∧
        ∃ k pre, "/a/b".toList = pre ++ "b".toList ++ List.replicate k '/' ∧
          (pre = [] ∨ pre.getLast? = some '/')) :=
  ⟨by decide, (c9_name_undefined "/a/b").2.2 "b" (by decide)⟩

/-! Section: C5: `Graph.get` splitting -/

theorem containsSub_single (c : Char) (l : List Char) :
    containsSub [c] l = true ↔ c ∈ l := by
  induction l with
  | nil => simp [containsSub, List.isPrefixOf]
  | cons a rest ih =>
    by_cases hac : c = a
    · subst hac
      simp [containsSub, List.isPrefixOf]
    · have h1 : ([c].isPrefixOf (a :: rest)) = false := by
        simp [List.isPrefixOf, hac]
      simp [containsSub, h1, ih, hac]

/-- Collapsing `.first.` keeps at least one dot whenever the input has
one. -/
theorem dot_mem_replace (v : String) (h : '.' ∈ v.toList) :
    '.' ∈ (pyReplaceS ".first." "." v).toList := by
  unfold pyReplaceS replaceSub
  cases hsp : splitSub ".first.".toList v.toList with
  | nil => exact absurd hsp (splitSubF_ne_nil _ _ _)
  | cons p ps =>
    cases ps with
    | nil =>
      have := splitSubF_single ".first.".toList v.toList.length v.toList p hsp
      subst this
      simpa [List.intercalate] using h
    | cons q qs =>
      rw [intercalate_cons_of_ne_nil _ _ _ (by simp)]
      simp

/-- Counterexample to C5 as stated: for `v = "a.b"`, the resulting
Attribute façade has node path `"/a"` — the `Node` path setter prefixed a
separator — not the pre-dot part `"a"` itself. -/
theorem c5_counterexample :
    graphGet "board" "a.b" = .ok (.attrRef ⟨⟨"board", "/a", false⟩, "b"⟩) ∧
      ("/a" : String) ≠ "a" := by
  exact ⟨by rfl, by decide⟩

/-- C5 (amended): a lookup key containing a dot and not starting with one
resolves to a node-plus-attribute pair: the node path is the part of the
`.first.`-collapsed key before its first dot, normalised by the `Node`
path setter (a `/` is prefixed when absent), and the attribute name is
the remainder; a key without a dot resolves to a Node façade. -/
theorem c5_get_split (b v : String) :
    (containsSubS "." v = true → pyStartsWith1 '.' v = false →
      ∃ pre post,
        breakAtChar '.' (pyReplaceS ".first." "." v).toList = some (pre, post) ∧
        graphGet b v =
          .ok (.attrRef ⟨⟨b, pathSet (String.mk pre), false⟩, String.mk post⟩)) ∧
    (containsSubS "." v = false →
      graphGet b v = .ok (.nodeRef ⟨b, pathSet v, false⟩)) := by
  constructor
  · intro h _
    have hmem : '.' ∈ v.toList := (containsSub_single '.' v.toList).mp h
    have hrep := dot_mem_replace v hmem
    cases hbk : breakAtChar '.' (pyReplaceS ".first." "." v).toList with
    | none => exact absurd hrep ((breakAtChar_eq_none _ _).mp hbk)
    | some pq =>
      obtain ⟨pre, post⟩ := pq
      refine ⟨pre, post, rfl, ?_⟩
      have hbk2 : breakAtChar '.' (pyReplaceS ".first." "." v).data = some (pre, post) := hbk
      simp [graphGet, h, hbk2]
  · intro h
    simp [graphGet, h]

/-- Witness for C5 (amended): a dotted board-relative key. -/
theorem c5_get_split_witness :
    ∃ pre post,
      breakAtChar '.' (pyReplaceS ".first." "." "/c/node.port").toList
        = some (pre, post) ∧
      graphGet "b" "/c/node.port" =
        .ok (.attrRef ⟨⟨"b", pathSet (String.mk pre), false⟩, String.mk post⟩) :=
  (c5_get_split "b" "/c/node.port").1 (by decide) (by decide)

/-! Section: C6: path separators -/

/-- No doubled separator in a concatenation whose halves are clean and do
not meet separator-to-separator. -/
theorem containsSub2_append (c : Char) :
    ∀ (p q : List Char), containsSub [c, c] p = false →
      containsSub [c, c] q = false →
      ¬(p.getLast? = some c ∧ q.head? = some c) →
      containsSub [c, c] (p ++ q) = false := by
  intro p
  induction p with
  | nil => intro q _ hq _; simpa using hq
  | cons a p' ih =>
    intro q hp hq hb
    have hp' : containsSub [c, c] p' = false := by
      rw [containsSub] at hp
      simpa using (Bool.or_eq_false_iff.mp hp).2
    rw [List.cons_append, containsSub]
    apply Bool.or_eq_false_iff.mpr
    constructor
    · cases hpc : p' with
      | nil =>
        cases hq2 : q with
        | nil => simp [List.isPrefixOf]
        | cons b q' =>
          simp only [List.isPrefixOf, Bool.and_eq_false_iff]
          by_cases hac : a = c
          · right
            have hqh : ¬ q.head? = some c := by
              intro hh
              exact hb ⟨by simp [hpc, hac], hh⟩
            rw [hq2] at hqh
            simp only [List.head?_cons] at hqh
            have hbc : ¬ b = c := fun hbb => hqh (by rw [hbb])
            simp [List.isPrefixOf, Ne.symm hbc]
          · left
            simp [Ne.symm hac]
      | cons b p'' =>
        simp only [List.isPrefixOf, Bool.and_eq_false_iff]
        by_cases hac : a = c
        · right
          have hbc : ¬ b = c := by
            intro hbb
            rw [containsSub] at hp
            have := (Bool.or_eq_false_iff.mp hp).1
            rw [hpc] at this
            simp [List.isPrefixOf, hac, hbb] at this
          simp [List.isPrefixOf, Ne.symm hbc]
        · left
          simp [Ne.symm hac]
    · apply ih q hp' hq
      intro hpair
      obtain ⟨h1, h2⟩ := hpair
      apply hb
      have hpne : p' ≠ [] := by
        intro hnil
        rw [hnil] at h1
        simp at h1
      refine ⟨?_, h2⟩
      rw [getLast?_cons_of_ne_nil a p' hpne]
      exact h1

/-- Replacement is the identity when the separator does not occur. -/
theorem replaceSub_id (old new l : List Char) (h : containsSub old l = false) :
    replaceSub old new l = l := by
  unfold replaceSub splitSub
  rw [splitSubF_of_not_contains old l.length l h]
  simp [List.intercalate]

/-- Splitting `p ++ [c, c] ++ q` on `[c, c]` when `p` is clean and does
not end in `c` and `q` is clean: exactly the two pieces. -/
theorem splitSubF_boundary (c : Char) (q : List Char)
    (hq : containsSub [c, c] q = false) :
    ∀ (fuel : Nat) (p : List Char), containsSub [c, c] p = false →
      p.getLast? ≠ some c →
      (p ++ c :: c :: q).length ≤ fuel →
      splitSubF [c, c] fuel (p ++ c :: c :: q) = [p, q] := by
  intro fuel
  induction fuel with
  | zero =>
    intro p _ _ hlen
    simp at hlen
  | succ n ih =>
    intro p hp hpe hlen
    cases p with
    | nil =>
      simp only [List.nil_append, splitSubF]
      rw [if_pos (by simp [List.isPrefixOf])]
      rw [show List.drop ([c, c] : List Char).length (c :: c :: q) = q from rfl]
      rw [splitSubF_of_not_contains _ _ _ hq]
    | cons a p' =>
      have hp' : containsSub [c, c] p' = false := by
        rw [containsSub] at hp
        simpa using (Bool.or_eq_false_iff.mp hp).2
      have hpre : ([c, c].isPrefixOf (a :: (p' ++ c :: c :: q))) = false := by
        cases hpc : p' with
        | nil =>
          have hac : ¬ a = c := by
            intro hh
            exact hpe (by rw [hpc]; simp [hh])
          simp [List.isPrefixOf, Ne.symm hac]
        | cons b p'' =>
          by_cases hac : a = c
          · have hbc : ¬ b = c := by
              intro hbb
              rw [containsSub] at hp
              have := (Bool.or_eq_false_iff.mp hp).1
              rw [hpc] at this
              simp [List.isPrefixOf, hac, hbb] at this
            simp [List.isPrefixOf, Ne.symm hbc]
          · simp [List.isPrefixOf, Ne.symm hac]
      have hcond : ([c, c].isPrefixOf (a :: (p' ++ c :: c :: q))
          && !([c, c] : List Char).isEmpty) = false := by
        rw [hpre]
        rfl
      rw [List.cons_append, splitSubF]
      rw [if_neg (ne_true_of_eq_false hcond)]
      have hpe' : p'.getLast? ≠ some c := by
        intro hh
        have hpne : p' ≠ [] := by
          intro hnil
          rw [hnil] at hh
          simp at hh
        apply hpe
        rw [getLast?_cons_of_ne_nil a p' hpne]
        exact hh
      have hlen' : (p' ++ c :: c :: q).length ≤ n := by
        simp only [List.length_append, List.length_cons] at hlen ⊢
        omega
      rw [ih p' hp' hpe' hlen']

/-- The `Node.node` join: clean inputs whose junction does not stack a
trailing and a leading separator produce a clean path. -/
theorem nodeChild_no_double (n : PNode) (c : String)
    (hp : containsSubS "//" n.path = false)
    (hc : containsSubS "//" c = false)
    (hpe : pyEndsWith1 '/' n.path = false) :
    containsSubS "//" (pyReplaceS "//" "/" (n.path ++ "/" ++ c)) = false := by
  have hp2 : containsSub ['/', '/'] n.path.toList = false := hp
  have hc2 : containsSub ['/', '/'] c.toList = false := hc
  have hpe2 : n.path.toList.getLast? ≠ some '/' := by
    intro hh
    unfold pyEndsWith1 at hpe
    rw [hh] at hpe
    simp at hpe
  have hdata : (n.path ++ "/" ++ c).toList = n.path.toList ++ '/' :: c.toList := by
    simp [String.toList]
  show containsSub ['/', '/']
    (replaceSub ['/', '/'] ['/'] (n.path ++ "/" ++ c).toList) = false
  rw [hdata]
  cases hcs : c.toList with
  | nil =>
    have hclean : containsSub ['/', '/'] (n.path.toList ++ '/' :: []) = false := by
      apply containsSub2_append _ _ _ hp2 (by decide)
      intro hpair
      exact hpe2 hpair.1
    rw [replaceSub_id _ _ _ hclean]
    exact hclean
  | cons b c' =>
    by_cases hbc : b = '/'
    · subst hbc
      have hc' : containsSub ['/', '/'] c' = false := by
        rw [hcs, containsSub] at hc2
        simpa using (Bool.or_eq_false_iff.mp hc2).2
      have hc'h : c'.head? ≠ some '/' := by
        intro hh
        rw [hcs, containsSub] at hc2
        have hfst := (Bool.or_eq_false_iff.mp hc2).1
        cases c' with
        | nil => simp at hh
        | cons d c'' =>
          simp only [List.head?_cons] at hh
          have hd : d = '/' := by injection hh
          simp [List.isPrefixOf, hd] at hfst
      have hsplit : splitSub ['/', '/'] (n.path.toList ++ '/' :: '/' :: c') =
          [n.path.toList, c'] := by
        unfold splitSub
        exact splitSubF_boundary '/' c' hc' _ n.path.toList hp2 hpe2 (le_refl _)
      unfold replaceSub
      rw [hsplit]
      have hone : List.intercalate ['/'] [n.path.toList, c'] =
          n.path.toList ++ '/' :: c' := by
        rw [intercalate_cons_of_ne_nil _ _ _ (by simp), List.intercalate]
        simp
      rw [hone]
      apply containsSub2_append _ _ ('/' :: c') hp2
      · rw [containsSub]
        apply Bool.or_eq_false_iff.mpr
        refine ⟨?_, hc'⟩
        cases c' with
        | nil => simp [List.isPrefixOf]
        | cons d c'' =>
          have hd : ¬ d = '/' := by
            intro hh
            exact hc'h (by simp [hh])
          simp [List.isPrefixOf, Ne.symm hd]
      · intro hpair
        exact hpe2 hpair.1
    · rw [hcs] at hc2
      have hclean : containsSub ['/', '/'] (n.path.toList ++ '/' :: b :: c') = false := by
        apply containsSub2_append _ _ _ hp2
        · rw [containsSub]
          apply Bool.or_eq_false_iff.mpr
          refine ⟨?_, hc2⟩
          simp [List.isPrefixOf, Ne.symm hbc]
        · intro hpair
          exact hpe2 hpair.1
      rw [replaceSub_id _ _ _ hclean]
      exact hclean

/-- The path setter preserves the absence of doubled separators. -/
theorem pathSet_clean (s : String) (h : containsSubS "//" s = false) :
    containsSubS "//" (pathSet s) = false := by
  unfold pathSet
  by_cases hs : pyStartsWith1 '/' s = true
  · rw [if_pos hs]
    exact h
  · rw [if_neg hs]
    show containsSub ['/', '/'] ("/" ++ s).toList = false
    have hdata : ("/" ++ s).toList = '/' :: s.toList := by simp [String.toList]
    rw [hdata, containsSub]
    apply Bool.or_eq_false_iff.mpr
    refine ⟨?_, h⟩
    cases hcl : s.toList with
    | nil => simp [List.isPrefixOf]
    | cons b rest =>
      have hb : ¬ b = '/' := by
        intro hh
        apply hs
        have hcl2 : s.data = b :: rest := hcl
        simp [pyStartsWith1, hcl2, hh]
      simp [List.isPrefixOf, Ne.symm hb]

/-- Counterexample to C6 as stated: `Node.__div__` on the board root node
(stored path `"/"`, which is exactly what `Graph.node()` with no
arguments wraps) joined with the child name `"x"` yields `"//x"` — a
path containing the doubled separator `//`. -/
theorem c6_counterexample :
    pyDiv ⟨"b", "/", false⟩ "x" = "//x" ∧
      containsSubS "//" (pyDiv ⟨"b", "/", false⟩ "x") = true :=
  ⟨by decide, by decide⟩

/-- C6 (amended): a stored path always starts with a separator (the path
setter prefixes one when absent, and `rename` and `_create` rewrite the
path only through the setter); and the joins of child lookup
(`Node.node`) and of the `/` path-building operator (`Node.__div__`)
produce no doubled separator provided the parent path and the child
contain none and the parent path does not itself end with a separator
(the board root `"/"` does, and then `__div__` yields `//`: see the
counterexample). -/
theorem c6_path_join (v : String) (n : PNode) (c : String) :
    pyStartsWith1 '/' (pathSet v) = true ∧
    (containsSubS "//" n.path = false → containsSubS "//" c = false →
      pyEndsWith1 '/' n.path = false →
      containsSubS "//" (nodeChild n c).path = false ∧
      containsSubS "//" (pyDiv n c) = false) := by
  constructor
  · unfold pathSet
    by_cases hs : pyStartsWith1 '/' v = true
    · rw [if_pos hs]
      exact hs
    · rw [if_neg hs]
      show pyStartsWith1 '/' ("/" ++ v) = true
      unfold pyStartsWith1
      have hdata : ("/" ++ v).toList = '/' :: v.toList := by simp [String.toList]
      rw [hdata]
      simp
  · intro hp hc hpe
    have hp2 : containsSub ['/', '/'] n.path.toList = false := hp
    have hc2 : containsSub ['/', '/'] c.toList = false := hc
    have hpe2 : n.path.toList.getLast? ≠ some '/' := by
      intro hh
      unfold pyEndsWith1 at hpe
      rw [hh] at hpe
      simp at hpe
    constructor
    · exact pathSet_clean _ (nodeChild_no_double n c hp hc hpe)
    · unfold pyDiv
      by_cases hsep : (pyStartsWith1 '.' c || pyStartsWith1 '/' c) = true
      · rw [if_pos hsep]
        show containsSub ['/', '/'] (n.path ++ "" ++ c).toList = false
        have hdata : (n.path ++ "" ++ c).toList = n.path.toList ++ c.toList := by
          simp [String.toList]
        rw [hdata]
        apply containsSub2_append _ _ _ hp2 hc2
        intro hpair
        exact hpe2 hpair.1
      · rw [if_neg hsep]
        show containsSub ['/', '/'] (n.path ++ "/" ++ c).toList = false
        have hdata : (n.path ++ "/" ++ c).toList = n.path.toList ++ '/' :: c.toList := by
          simp [String.toList]
        rw [hdata]
        have hnc : pyStartsWith1 '/' c = false := by
          rcases Bool.or_eq_false_iff.mp (by simpa using hsep) with ⟨_, h2⟩
          exact h2
        apply containsSub2_append _ _ _ hp2
        · rw [containsSub]
          apply Bool.or_eq_false_iff.mpr
          refine ⟨?_, hc2⟩
          cases hcl : c.toList with
          | nil => simp [List.isPrefixOf]
          | cons b rest =>
            have hb : ¬ b = '/' := by
              intro hh
              rw [pyStartsWith1, hcl] at hnc
              simp [hh] at hnc
            simp [List.isPrefixOf, Ne.symm hb]
        · intro hpair
          exact hpe2 hpair.1

/-- Witness for C6 (amended): joining `/a` with `b`. -/
theorem c6_path_join_witness :
    containsSubS "//" (nodeChild ⟨"bd", "/a", false⟩ "b").path = false ∧
      containsSubS "//" (pyDiv ⟨"bd", "/a", false⟩ "b") = false :=
  (c6_path_join "/a" ⟨"bd", "/a", false⟩ "b").2 (by decide) (by decide) (by decide)

/-! Section: C2 and C10: rename -/

theorem pySetDiff_self (L : List String) : pySetDiff L L = [] := by
  unfold pySetDiff
  have hf : L.filter (fun x => !(L.contains x)) = [] := by
    apply List.filter_eq_nil_iff.mpr
    intro x hx
    simp [hx]
  rw [hf]
  rfl

/-- C2: `Node.rename(m)` returns `None` and issues no host call when `m`
is falsy or equals the current name of the node; otherwise it captures the
sibling listing of the parent, issues the host rename, re-captures the
listing, recovers the host-assigned unique name as the set difference
(new minus old), stores `parent + name` back through the path setter and
returns the new path. -/
theorem c2_rename (st : HostState) (n : PNode) (nm : Option String) :
    ((nm = none ∨ nm = some "") →
      nodeRename st n nm = ⟨.ok (none, n), st, []⟩) ∧
    (∀ s, nm = some s → pyName n.path = some s →
      nodeRename st n nm = ⟨.ok (none, n), st, []⟩) ∧
    (∀ s cur d, nm = some s → s ≠ "" → pyName n.path = some cur → cur ≠ s →
      pySetDiff (st.renameListing (pyParent n.path) cur s)
          (st.children (pyParent n.path)) = [d] →
      (nodeRename st n nm).val =
        .ok (some (pathSet (pyParent n.path ++ d)),
          {n with path := pathSet (pyParent n.path ++ d)}) ∧
      (nodeRename st n nm).trace =
        [HostCall.listNodes n.board (pyParent n.path),
         HostCall.renameNode n.board (pyParent n.path) cur s,
         HostCall.listNodes n.board (pyParent n.path)]) := by
  refine ⟨?_, ?_, ?_⟩
  · intro h
    rcases h with h | h <;> subst h <;> simp [nodeRename]
  · intro s hnm hname
    subst hnm
    by_cases hse : s = ""
    · simp [nodeRename, hse]
    · simp [nodeRename, hse, hname]
  · intro s cur d hnm hs hname hne hdiff
    subst hnm
    have hch : (updChildren st (pyParent n.path)
        (st.renameListing (pyParent n.path) cur s)).children (pyParent n.path) =
        st.renameListing (pyParent n.path) cur s := by
      simp [updChildren]
    constructor
    · simp only [nodeRename, Option.getD_some]
      simp only [hname]
      rw [if_neg (by simp [hs]), if_neg (by simp [hne]), hch, hdiff]
      rfl
    · simp only [nodeRename, Option.getD_some]
      simp only [hname]
      rw [if_neg (by simp [hs]), if_neg (by simp [hne]), hch, hdiff]
      rfl

/-- Witness for C2: renaming `/node1` to `fresh` against the sample host
state recovers the host-assigned sibling. -/
theorem c2_rename_witness :
    (nodeRename stEx ⟨"b", "/node1", false⟩ (some "fresh")).val =
      .ok (some (pathSet (pyParent "/node1" ++ "fresh")),
        {(⟨"b", "/node1", false⟩ : PNode) with
          path := pathSet (pyParent "/node1" ++ "fresh")}) ∧
    (nodeRename stEx ⟨"b", "/node1", false⟩ (some "fresh")).trace =
      [HostCall.listNodes "b" (pyParent "/node1"),
       HostCall.renameNode "b" (pyParent "/node1") "node1" "fresh",
       HostCall.listNodes "b" (pyParent "/node1")] :=
  (c2_rename stEx ⟨"b", "/node1", false⟩ (some "fresh")).2.2 "fresh" "node1"
    "fresh" rfl (by decide) (by decide) (by decide) (by decide)

/-- The state used by the C10 witness: the host rename leaves the sibling
listing unchanged. -/
def stEx2 : HostState :=
  {stEx with renameListing := fun _ _ _ => ["node1"]}

/-- C10: the set-difference recovery of `Node.rename` needs a new
sibling: when the host listing after the rename equals the one before,
the recovery raises `IndexError`; and any successful rename stores
`parent + d` for some member `d` of the difference — nothing pins `d`
down further, so the post-rename path is canonical only under the
exactly-one-new-sibling precondition. -/
theorem c10_rename_diff (st : HostState) (n : PNode) (s cur : String)
    (hs : s ≠ "") (hname : pyName n.path = some cur) (hne : cur ≠ s) :
    (st.renameListing (pyParent n.path) cur s = st.children (pyParent n.path) →
      (nodeRename st n (some s)).val = .error .indexError) ∧
    (∀ p node2, (nodeRename st n (some s)).val = .ok (some p, node2) →
      ∃ d, d ∈ pySetDiff (st.renameListing (pyParent n.path) cur s)
          (st.children (pyParent n.path)) ∧
        p = pathSet (pyParent n.path ++ d) ∧ node2.path = p) := by
  have hch : (updChildren st (pyParent n.path)
      (st.renameListing (pyParent n.path) cur s)).children (pyParent n.path) =
      st.renameListing (pyParent n.path) cur s := by
    simp [updChildren]
  constructor
  · intro heq
    have hdiff : pySetDiff (st.renameListing (pyParent n.path) cur s)
        (st.children (pyParent n.path)) = [] := by
      rw [heq]
      exact pySetDiff_self _
    simp only [nodeRename, Option.getD_some]
    simp only [hname]
    rw [if_neg (by simp [hs]), if_neg (by simp [hne]), hch, hdiff]
    rfl
  · intro p node2 hok
    simp only [nodeRename, Option.getD_some] at hok
    simp only [hname] at hok
    rw [if_neg (by simp [hs]), if_neg (by simp [hne]), hch] at hok
    cases hdiff : pySetDiff (st.renameListing (pyParent n.path) cur s)
        (st.children (pyParent n.path)) with
    | nil =>
      rw [hdiff] at hok
      simp at hok
    | cons d ds =>
      rw [hdiff] at hok
      simp only [List.head?_cons] at hok
      refine ⟨d, by simp, ?_⟩
      have hok2 : (some (pathSet (pyParent n.path ++ d)),
          ({n with path := pathSet (pyParent n.path ++ d)} : PNode)) = (some p, node2) := by
        simpa using hok
      injection hok2 with h1 h2
      have hp : p = pathSet (pyParent n.path ++ d) := by
        injection h1 with h1b
        exact h1b.symm
      refine ⟨hp, ?_⟩
      rw [← h2, hp]

/-- Witness for C10: a host rename with no visible effect on the sibling
listing makes `rename` raise `IndexError`. -/
theorem c10_rename_diff_witness :
    (nodeRename stEx2 ⟨"b", "/node1", false⟩ (some "fresh")).val =
      .error .indexError :=
  (c10_rename_diff stEx2 ⟨"b", "/node1", false⟩ "fresh" "node1" (by decide)
    (by decide) (by decide)).1 (by decide)

/-! Section: C1: connect ordering -/

def isConnectCall : HostCall → Bool
  | .vnnConnect .. => true
  | _ => false

/-- The full behaviour of `Attribute.connect` as one equation. -/
theorem attrConnect_eq (st : HostState) (a t : PAttr) :
    attrConnect st a t =
      (let st1 := if attrExists st a then st else addedPort st a
       let st2 := if nodeTypeOf st1 t.node.path == "" then addedPort st1 t else st1
       let st3 := if attrExists st2 t then st2 else addedPort st2 t
       ⟨.ok (),
        {st3 with connections := st3.connections ++ [(a.plug, t.plug)]},
        [HostCall.listPorts a.node.board a.node.path] ++
        (if attrExists st a then []
         else [HostCall.createPort a.node.board a.node.path "createOutputPort"
           a.name "auto" a.node.is_compound]) ++
        [HostCall.queryTypeName t.node.board t.node.path] ++
        (if nodeTypeOf st1 t.node.path == "" then
           [HostCall.queryPortDataType a.node.board a.node.path a.name,
            HostCall.createPort t.node.board t.node.path "createInputPort" t.name
              (st1.portType a.node.path a.name) t.node.is_compound]
         else []) ++
        [HostCall.listPorts t.node.board t.node.path] ++
        (if attrExists st2 t then []
         else [HostCall.createPort t.node.board t.node.path "createInputPort"
           t.name "auto" t.node.is_compound]) ++
        [HostCall.vnnConnect a.node.board a.plug t.plug]⟩) := by
  cases he1 : attrExists st a with
  | true =>
    cases ht : nodeTypeOf st t.node.path == "" with
    | true =>
      cases he3 : attrExists (addedPort st t) t with
      | true => simp [attrConnect, attrAdd, he1, ht, he3, JVal.truthy]
      | false => simp [attrConnect, attrAdd, he1, ht, he3, JVal.truthy]
    | false =>
      cases he3 : attrExists st t with
      | true => simp [attrConnect, attrAdd, he1, ht, he3, JVal.truthy]
      | false => simp [attrConnect, attrAdd, he1, ht, he3, JVal.truthy]
  | false =>
    cases ht : nodeTypeOf (addedPort st a) t.node.path == "" with
    | true =>
      cases he3 : attrExists (addedPort (addedPort st a) t) t with
      | true => simp [attrConnect, attrAdd, he1, ht, he3, JVal.truthy]
      | false => simp [attrConnect, attrAdd, he1, ht, he3, JVal.truthy]
    | false =>
      cases he3 : attrExists (addedPort st a) t with
      | true => simp [attrConnect, attrAdd, he1, ht, he3, JVal.truthy]
      | false => simp [attrConnect, attrAdd, he1, ht, he3, JVal.truthy]

/-- C1: `Attribute.connect` never raises; its host-call trace is, in
order: the source existence query, an `output` add when the source did
not exist, the target-node type query, an `input` add carrying the
queried source datatype when that type is falsy, the target existence
query, an `input` add with datatype `"auto"` when the target still does
not exist, and finally exactly one host connect call, which comes last. -/
theorem c1_connect_order (st : HostState) (a t : PAttr) :
    (attrConnect st a t).val = .ok () ∧
    ((attrConnect st a t).trace =
      (let st1 := if attrExists st a then st else addedPort st a
       let st2 := if nodeTypeOf st1 t.node.path == "" then addedPort st1 t else st1
       [HostCall.listPorts a.node.board a.node.path] ++
       (if attrExists st a then []
        else [HostCall.createPort a.node.board a.node.path "createOutputPort"
          a.name "auto" a.node.is_compound]) ++
       [HostCall.queryTypeName t.node.board t.node.path] ++
       (if nodeTypeOf st1 t.node.path == "" then
          [HostCall.queryPortDataType a.node.board a.node.path a.name,
           HostCall.createPort t.node.board t.node.path "createInputPort" t.name
             (st1.portType a.node.path a.name) t.node.is_compound]
        else []) ++
       [HostCall.listPorts t.node.board t.node.path] ++
       (if attrExists st2 t then []
        else [HostCall.createPort t.node.board t.node.path "createInputPort"
          t.name "auto" t.node.is_compound]) ++
       [HostCall.vnnConnect a.node.board a.plug t.plug])) ∧
    ((attrConnect st a t).trace.filter isConnectCall).length = 1 ∧
    (attrConnect st a t).trace.getLast? =
      some (HostCall.vnnConnect a.node.board a.plug t.plug) := by
  rw [attrConnect_eq]
  refine ⟨rfl, rfl, ?_, ?_⟩
  · show (List.filter isConnectCall (_ ++ _ ++ _ ++ _ ++ _ ++ _ ++
      [HostCall.vnnConnect a.node.board a.plug t.plug])).length = 1
    split_ifs <;> simp [isConnectCall]
  · show (_ ++ _ ++ _ ++ _ ++ _ ++ _ ++
      [HostCall.vnnConnect a.node.board a.plug t.plug]).getLast? = _
    split_ifs <;> simp

/-! Section: C3: `from_json` returns None exactly when no compound description
is present -/

/-- Python `rename` never changes the board or the container flag. -/
theorem nodeRename_fields (st : HostState) (n : PNode) (nm : Option String)
    (r : Option String) (n2 : PNode)
    (h : (nodeRename st n nm).val = .ok (r, n2)) :
    n2.is_compound = n.is_compound ∧ n2.board = n.board := by
  cases nm with
  | none =>
    simp [nodeRename] at h
    rw [← h.2]
    exact ⟨rfl, rfl⟩
  | some s =>
    by_cases hse : s = ""
    · subst hse
      simp [nodeRename] at h
      rw [← h.2]
      exact ⟨rfl, rfl⟩
    · cases hname : pyName n.path with
      | none => simp [nodeRename, hse, hname] at h
      | some cur =>
        by_cases hc : cur = s
        · simp [nodeRename, hse, hname, hc] at h
          rw [← h.2]
          exact ⟨rfl, rfl⟩
        · simp only [nodeRename, Option.getD_some] at h
          simp only [hname] at h
          rw [if_neg (by simp [hse]), if_neg (by simp [hc])] at h
          cases hd : (pySetDiff ((updChildren st (pyParent n.path)
              (st.renameListing (pyParent n.path) cur s)).children (pyParent n.path))
              (st.children (pyParent n.path))).head? with
          | none =>
            rw [hd] at h
            simp at h
          | some d =>
            rw [hd] at h
            obtain ⟨-, h2⟩ : some (pathSet (pyParent n.path ++ d)) = r ∧
                PNode.mk n.board (pathSet (pyParent n.path ++ d))
                  n.is_compound = n2 := by
              simpa using h
            rw [← h2]
            exact ⟨rfl, rfl⟩

/-- The metadata/rename tail of `_create` never changes the board or the
container flag. -/
theorem finishCreate_fields (st : HostState) (n : PNode) (nm : Option String)
    (tr : List HostCall) (n2 : PNode)
    (h : (finishCreate st n nm tr).val = .ok n2) :
    n2.is_compound = n.is_compound ∧ n2.board = n.board := by
  simp only [finishCreate] at h
  split at h
  · simp at h
  · rename_i r n3 heq
    have h2 : n3 = n2 := by simpa using h
    subst h2
    exact nodeRename_fields _ _ _ _ _ heq

/-- The compound created by `from_json` is a compound on the right
board. -/
theorem createMainCompound_fields (st : HostState) (board : String) (c : PNode)
    (h : (createMainCompound st board).val = .ok c) :
    c.is_compound = true ∧ c.board = board := by
  simp only [createMainCompound, nodeConstruct, nodeCreate] at h
  rw [if_pos (by rfl)] at h
  split at h
  · simp at h
  · exact finishCreate_fields _ _ _ _ _ h

/-- The replay never returns `None`, and a successful replay returns the
created compound. -/
theorem replayCompound_val (st : HostState) (board : String) (desc : JVal) :
    (replayCompound st board desc).val ≠ .ok none ∧
    (∀ x, (replayCompound st board desc).val = .ok (some x) →
      x.is_compound = true ∧ x.board = board) := by
  simp only [replayCompound]
  split
  · simp
  · rename_i c hrc
    split
    · simp
    · split
      · simp
      · split
        · simp
        · split
          · simp
          · constructor
            · simp
            · intro x hx
              have hcx : c = x := by simpa using hx
              subst hcx
              exact createMainCompound_fields st board c hrc

/-- The conditions of C3: the file is absent, the document has no
`compounds` key, or the last element of the `compounds` array is falsy. -/
def noCompoundDesc (fileData : Option JVal) : Prop :=
  fileData = none ∨
  (∃ kvs, fileData = some (.jobj kvs) ∧ kvs.lookup "compounds" = none) ∨
  (∃ kvs xs l, fileData = some (.jobj kvs) ∧
    kvs.lookup "compounds" = some (.jarr xs) ∧
    xs.getLast? = some l ∧ l.truthy = false)

/-- C3: `Graph.from_json` returns `None` exactly when the file contains
no compound description — the file is absent, its JSON object lacks the
`compounds` key, or the last element of the `compounds` array is falsy —
and any non-`None` return is the newly created compound node. -/
theorem c3_from_json_none (st : HostState) (board : String) (fd : Option JVal) :
    ((fromJson st board fd).val = .ok none ↔ noCompoundDesc fd) ∧
    (∀ x, (fromJson st board fd).val = .ok (some x) →
      x.is_compound = true ∧ x.board = board) := by
  cases fd with
  | none =>
    refine ⟨⟨fun _ => Or.inl rfl, fun _ => rfl⟩, ?_⟩
    intro x hx
    have : (Except.ok none : Except PyErr (Option PNode)) = .ok (some x) := hx
    simp at this
  | some j =>
    cases j with
    | jobj kvs =>
      cases hlk : kvs.lookup "compounds" with
      | none =>
        have hval : (fromJson st board (some (.jobj kvs))).val = .ok none := by
          simp [fromJson, pyGetD, hlk, pyLastItem, JVal.truthy]
        refine ⟨⟨fun _ => Or.inr (Or.inl ⟨kvs, rfl, hlk⟩), fun _ => hval⟩, ?_⟩
        intro x hx
        rw [hval] at hx
        simp at hx
      | some v =>
        cases v with
        | jarr xs =>
          cases hgl : xs.getLast? with
          | none =>
            have hval : (fromJson st board (some (.jobj kvs))).val =
                .error .indexError := by
              simp [fromJson, pyGetD, hlk, pyLastItem, hgl]
            refine ⟨⟨fun hh => ?_, fun hrhs => ?_⟩, ?_⟩
            · rw [hval] at hh
              simp at hh
            · rcases hrhs with h | ⟨kvs2, hk, hl⟩ | ⟨kvs2, xs2, l2, hk, hl, hg, ht⟩
              · simp at h
              · have : kvs2 = kvs := by simpa using hk.symm
                subst this
                rw [hlk] at hl
                simp at hl
              · have : kvs2 = kvs := by simpa using hk.symm
                subst this
                rw [hlk] at hl
                have hxx : xs = xs2 := by simpa using hl
                subst hxx
                rw [hgl] at hg
                simp at hg
            · intro x hx
              rw [hval] at hx
              simp at hx
          | some l =>
            cases htr : l.truthy with
            | false =>
              have hval : (fromJson st board (some (.jobj kvs))).val = .ok none := by
                simp [fromJson, pyGetD, hlk, pyLastItem, hgl, htr]
              refine ⟨⟨fun _ => Or.inr (Or.inr ⟨kvs, xs, l, rfl, hlk, hgl, htr⟩),
                fun _ => hval⟩, ?_⟩
              intro x hx
              rw [hval] at hx
              simp at hx
            | true =>
              have hval : fromJson st board (some (.jobj kvs)) =
                  replayCompound st board l := by
                simp [fromJson, pyGetD, hlk, pyLastItem, hgl, htr]
              obtain ⟨hne, himp⟩ := replayCompound_val st board l
              refine ⟨⟨fun hh => ?_, fun hrhs => ?_⟩, ?_⟩
              · rw [hval] at hh
                exact absurd hh hne
              · rcases hrhs with h | ⟨kvs2, hk, hl⟩ | ⟨kvs2, xs2, l2, hk, hl, hg, ht⟩
                · simp at h
                · have : kvs2 = kvs := by simpa using hk.symm
                  subst this
                  rw [hlk] at hl
                  simp at hl
                · have : kvs2 = kvs := by simpa using hk.symm
                  subst this
                  rw [hlk] at hl
                  have hxx : xs = xs2 := by simpa using hl
                  subst hxx
                  rw [hgl] at hg
                  have hll : l = l2 := by simpa using hg
                  subst hll
                  rw [htr] at ht
                  simp at ht
              · intro x hx
                rw [hval] at hx
                exact himp x hx
        | jnull =>
          have hval : (fromJson st board (some (.jobj kvs))).val =
              .error .typeError := by
            simp [fromJson, pyGetD, hlk, pyLastItem]
          refine ⟨⟨fun hh => ?_, fun hrhs => ?_⟩, ?_⟩
          · rw [hval] at hh
            simp at hh
          · rcases hrhs with h | ⟨kvs2, hk, hl⟩ | ⟨kvs2, xs2, l2, hk, hl, hg, ht⟩
            · simp at h
            · have : kvs2 = kvs := by simpa using hk.symm
              subst this
              rw [hlk] at hl
              simp at hl
            · have : kvs2 = kvs := by simpa using hk.symm
              subst this
              rw [hlk] at hl
              simp at hl
          · intro x hx
            rw [hval] at hx
            simp at hx
        | jbool b =>
          have hval : (fromJson st board (some (.jobj kvs))).val =
              .error .typeError := by
            simp [fromJson, pyGetD, hlk, pyLastItem]
          refine ⟨⟨fun hh => ?_, fun hrhs => ?_⟩, ?_⟩
          · rw [hval] at hh
            simp at hh
          · rcases hrhs with h | ⟨kvs2, hk, hl⟩ | ⟨kvs2, xs2, l2, hk, hl, hg, ht⟩
            · simp at h
            · have : kvs2 = kvs := by simpa using hk.symm
              subst this
              rw [hlk] at hl
              simp at hl
            · have : kvs2 = kvs := by simpa using hk.symm
              subst this
              rw [hlk] at hl
              simp at hl
          · intro x hx
            rw [hval] at hx
            simp at hx
        | jnum m =>
          have hval : (fromJson st board (some (.jobj kvs))).val =
              .error .typeError := by
            simp [fromJson, pyGetD, hlk, pyLastItem]
          refine ⟨⟨fun hh => ?_, fun hrhs => ?_⟩, ?_⟩
          · rw [hval] at hh
            simp at hh
          · rcases hrhs with h | ⟨kvs2, hk, hl⟩ | ⟨kvs2, xs2, l2, hk, hl, hg, ht⟩
            · simp at h
            · have : kvs2 = kvs := by simpa using hk.symm
              subst this
              rw [hlk] at hl
              simp at hl
            · have : kvs2 = kvs := by simpa using hk.symm
              subst this
              rw [hlk] at hl
              simp at hl
          · intro x hx
            rw [hval] at hx
            simp at hx
        | jobj kvs3 =>
          have hval : (fromJson st board (some (.jobj kvs))).val =
              .error .typeError := by
            simp [fromJson, pyGetD, hlk, pyLastItem]
          refine ⟨⟨fun hh => ?_, fun hrhs => ?_⟩, ?_⟩
          · rw [hval] at hh
            simp at hh
          · rcases hrhs with h | ⟨kvs2, hk, hl⟩ | ⟨kvs2, xs2, l2, hk, hl, hg, ht⟩
            · simp at h
            · have : kvs2 = kvs := by simpa using hk.symm
              subst this
              rw [hlk] at hl
              simp at hl
            · have : kvs2 = kvs := by simpa using hk.symm
              subst this
              rw [hlk] at hl
              simp at hl
          · intro x hx
            rw [hval] at hx
            simp at hx
        | jstr str =>
          cases hgl : str.toList.getLast? with
          | none =>
            have hgl2 : str.data.getLast? = none := hgl
            have hval : (fromJson st board (some (.jobj kvs))).val =
                .error .indexError := by
              simp [fromJson, pyGetD, hlk, pyLastItem, hgl2]
            refine ⟨⟨fun hh => ?_, fun hrhs => ?_⟩, ?_⟩
            · rw [hval] at hh
              simp at hh
            · rcases hrhs with h | ⟨kvs2, hk, hl⟩ | ⟨kvs2, xs2, l2, hk, hl, hg, ht⟩
              · simp at h
              · have : kvs2 = kvs := by simpa using hk.symm
                subst this
                rw [hlk] at hl
                simp at hl
              · have : kvs2 = kvs := by simpa using hk.symm
                subst this
                rw [hlk] at hl
                simp at hl
            · intro x hx
              rw [hval] at hx
              simp at hx
          | some ch =>
            have htr : (JVal.jstr (String.mk [ch])).truthy = true := by
              have hne2 : (String.mk [ch] == "") = false := by
                apply beq_eq_false_iff_ne.mpr
                intro hh
                have := congrArg String.data hh
                simp at this
              simp [JVal.truthy, hne2]
            have hgl2 : str.data.getLast? = some ch := hgl
            have hval : fromJson st board (some (.jobj kvs)) =
                replayCompound st board (.jstr (String.mk [ch])) := by
              simp [fromJson, pyGetD, hlk, pyLastItem, hgl2, htr]
            obtain ⟨hne, himp⟩ := replayCompound_val st board (.jstr (String.mk [ch]))
            refine ⟨⟨fun hh => ?_, fun hrhs => ?_⟩, ?_⟩
            · rw [hval] at hh
              exact absurd hh hne
            · rcases hrhs with h | ⟨kvs2, hk, hl⟩ | ⟨kvs2, xs2, l2, hk, hl, hg, ht⟩
              · simp at h
              · have : kvs2 = kvs := by simpa using hk.symm
                subst this
                rw [hlk] at hl
                simp at hl
              · have : kvs2 = kvs := by simpa using hk.symm
                subst this
                rw [hlk] at hl
                simp at hl
            · intro x hx
              rw [hval] at hx
              exact himp x hx
    | jnull =>
      have hval : (fromJson st board (some .jnull)).val =
          .error .attributeError := by
        simp [fromJson, pyGetD]
      refine ⟨⟨fun hh => ?_, fun hrhs => ?_⟩, ?_⟩
      · rw [hval] at hh
        simp at hh
      · rcases hrhs with h | ⟨kvs2, hk, hl⟩ | ⟨kvs2, xs2, l2, hk, hl, hg, ht⟩
        · simp at h
        · simp at hk
        · simp at hk
      · intro x hx
        rw [hval] at hx
        simp at hx
    | jbool b =>
      have hval : (fromJson st board (some (.jbool b))).val =
          .error .attributeError := by
        simp [fromJson, pyGetD]
      refine ⟨⟨fun hh => ?_, fun hrhs => ?_⟩, ?_⟩
      · rw [hval] at hh
        simp at hh
      · rcases hrhs with h | ⟨kvs2, hk, hl⟩ | ⟨kvs2, xs2, l2, hk, hl, hg, ht⟩
        · simp at h
        · simp at hk
        · simp at hk
      · intro x hx
        rw [hval] at hx
        simp at hx
    | jnum m =>
      have hval : (fromJson st board (some (.jnum m))).val =
          .error .attributeError := by
        simp [fromJson, pyGetD]
      refine ⟨⟨fun hh => ?_, fun hrhs => ?_⟩, ?_⟩
      · rw [hval] at hh
        simp at hh
      · rcases hrhs with h | ⟨kvs2, hk, hl⟩ | ⟨kvs2, xs2, l2, hk, hl, hg, ht⟩
        · simp at h
        · simp at hk
        · simp at hk
      · intro x hx
        rw [hval] at hx
        simp at hx
    | jstr str =>
      have hval : (fromJson st board (some (.jstr str))).val =
          .error .attributeError := by
        simp [fromJson, pyGetD]
      refine ⟨⟨fun hh => ?_, fun hrhs => ?_⟩, ?_⟩
      · rw [hval] at hh
        simp at hh
      · rcases hrhs with h | ⟨kvs2, hk, hl⟩ | ⟨kvs2, xs2, l2, hk, hl, hg, ht⟩
        · simp at h
        · simp at hk
        · simp at hk
      · intro x hx
        rw [hval] at hx
        simp at hx
    | jarr xs =>
      have hval : (fromJson st board (some (.jarr xs))).val =
          .error .attributeError := by
        simp [fromJson, pyGetD]
      refine ⟨⟨fun hh => ?_, fun hrhs => ?_⟩, ?_⟩
      · rw [hval] at hh
        simp at hh
      · rcases hrhs with h | ⟨kvs2, hk, hl⟩ | ⟨kvs2, xs2, l2, hk, hl, hg, ht⟩
        · simp at h
        · simp at hk
        · simp at hk
      · intro x hx
        rw [hval] at hx
        simp at hx

/-- A well-formed single-compound document with empty sections. -/
def jEx : JVal :=
  .jobj [("compounds", .jarr [.jobj [("ports", .jarr []),
    ("compoundNodes", .jarr []), ("connections", .jarr []),
    ("values", .jarr [])]])]

/-- Witness for C3: importing `jEx` against the sample host state returns
the created compound (renamed to `paintDelta` by the host oracle). -/
theorem c3_from_json_none_witness :
    (fromJson stEx "b" (some jEx)).val = .ok (some ⟨"b", "/paintDelta", true⟩) ∧
      (PNode.mk "b" "/paintDelta" true).is_compound = true ∧
      (PNode.mk "b" "/paintDelta" true).board = "b" :=
  ⟨by rfl,
   (c3_from_json_none stEx "b" (some jEx)).2 ⟨"b", "/paintDelta", true⟩ (by rfl)⟩

/-! Section: C4: `from_json` section ordering -/

def isCreatePortCall : HostCall → Bool
  | .createPort .. => true
  | _ => false

/-- Host calls a `compoundNodes` entry may issue: node creation, UUID
metadata, the rename listing/rename pair, and multi-input port adds —
never a connect or a value assignment. -/
def nodeSectionKind : HostCall → Bool
  | .addNode .. => true
  | .createCompound .. => true
  | .setMetaData .. => true
  | .listNodes .. => true
  | .renameNode .. => true
  | .createPort .. => true
  | _ => false

/-- Host calls a `connections` entry may issue: existence/type queries,
implicit port adds, and the connect itself — never a node creation or a
value assignment. -/
def connSectionKind : HostCall → Bool
  | .listPorts .. => true
  | .queryTypeName .. => true
  | .queryPortDataType .. => true
  | .createPort .. => true
  | .vnnConnect .. => true
  | _ => false

/-- Host calls a `values` entry may issue: the type queries of `set` and
the value assignment — never a port add, node creation or connect. -/
def valueSectionKind : HostCall → Bool
  | .queryTypeName .. => true
  | .setPortDefault .. => true
  | _ => false

theorem all_imp {P Q : HostCall → Bool} (h : ∀ c, P c = true → Q c = true) :
    ∀ (l : List HostCall), l.all P = true → l.all Q = true := by
  intro l hl
  rw [List.all_eq_true] at hl ⊢
  exact fun c hc => h c (hl c hc)

theorem attrAdd_jnull_trace (st : HostState) (a : PAttr) (d dt : String) :
    (attrAdd st a d dt .jnull).trace.all isCreatePortCall = true := by
  cases hd : (d == "input" || d == "output") <;>
    simp [attrAdd, hd, JVal.truthy, isCreatePortCall]

theorem attrSet_trace_kind (st : HostState) (a : PAttr) (v : JVal) :
    (attrSet st a v).2.all valueSectionKind = true := by
  simp only [attrSet]
  split_ifs <;> rfl

theorem nodeRename_trace_kind (st : HostState) (n : PNode) (nm : Option String) :
    (nodeRename st n nm).trace.all nodeSectionKind = true := by
  simp only [nodeRename]
  split
  · rfl
  · split
    · rfl
    · split
      · rfl
      · split <;> rfl

theorem finishCreate_trace_kind (st : HostState) (n : PNode) (nm : Option String)
    (tr0 : List HostCall) (h : tr0.all nodeSectionKind = true) :
    (finishCreate st n nm tr0).trace.all nodeSectionKind = true := by
  simp only [finishCreate]
  split <;>
    simp [List.all_append, h, nodeRename_trace_kind, nodeSectionKind]

theorem nodeCreate_trace_kind (st : HostState) (n : PNode) (ty : String)
    (nm : Option String) :
    (nodeCreate st n ty nm).trace.all nodeSectionKind = true := by
  simp only [nodeCreate]
  repeat' split
  all_goals first
    | rfl
    | exact finishCreate_trace_kind _ _ _ _ (by rfl)

theorem nodeConstruct_trace_kind (st : HostState) (board parent ty : String)
    (nm : Option String) :
    (nodeConstruct st board parent ty nm).trace.all nodeSectionKind = true :=
  nodeCreate_trace_kind _ _ _ _

theorem runSteps_trace_kind (P : HostCall → Bool)
    (step : HostState → JVal → Res Unit)
    (hstep : ∀ st e, (step st e).trace.all P = true) :
    ∀ (st : HostState) (lst : List JVal),
      (runSteps step st lst).trace.all P = true := by
  intro st lst
  induction lst generalizing st with
  | nil => rfl
  | cons e rest ih =>
    simp only [runSteps]
    split
    · exact hstep st e
    · simp [List.all_append, hstep st e, ih]

theorem attrConnect_trace_kind (st : HostState) (a t : PAttr) :
    (attrConnect st a t).trace.all connSectionKind = true := by
  rw [attrConnect_eq]
  simp only []
  split_ifs <;> rfl

theorem portStep_trace_kind (c : PNode) (st : HostState) (e : JVal) :
    (portStep c st e).trace.all isCreatePortCall = true := by
  simp only [portStep]
  split
  · rfl
  · split
    · rfl
    · split
      · rfl
      · exact attrAdd_jnull_trace _ _ _ _

theorem runPortsSec_trace_kind (st : HostState) (c : PNode) (data : JVal) :
    (runPortsSec st c data).trace.all isCreatePortCall = true := by
  simp only [runPortsSec]
  split
  · rfl
  · split
    · rfl
    · exact runSteps_trace_kind _ _ (portStep_trace_kind c) _ _

theorem nodeStep_trace_kind (board : String) (compound : PNode)
    (st : HostState) (e : JVal) :
    (nodeStep board compound st e).trace.all nodeSectionKind = true := by
  have hmulti : ∀ (node : PNode) (st2 : HostState) (p : JVal),
      (multiInStep node st2 p).trace.all nodeSectionKind = true := by
    intro node st2 p
    exact all_imp (fun c hc => by cases c <;> simp_all [isCreatePortCall, nodeSectionKind])
      _ (attrAdd_jnull_trace _ _ _ _)
  have hmeta : ∀ (node : PNode) (st2 : HostState) (m : JVal),
      (metadataStep node st2 m).trace.all nodeSectionKind = true := by
    intro node st2 m
    simp only [metadataStep]
    split
    · rfl
    · split
      · rfl
      · rfl
  have hms : ∀ (node : PNode) (st2 : HostState) (lst : List JVal),
      (runSteps (multiInStep node) st2 lst).trace.all nodeSectionKind = true :=
    fun node => runSteps_trace_kind _ _ (hmulti node)
  have hds : ∀ (node : PNode) (st2 : HostState) (lst : List JVal),
      (runSteps (metadataStep node) st2 lst).trace.all nodeSectionKind = true :=
    fun node => runSteps_trace_kind _ _ (hmeta node)
  simp only [nodeStep]
  repeat' split
  all_goals first
    | rfl
    | exact nodeConstruct_trace_kind _ _ _ _ _
    | simp [List.all_append, nodeConstruct_trace_kind, hms, hds]

theorem runNodesSec_trace_kind (st : HostState) (board : String)
    (compound : PNode) (data : JVal) :
    (runNodesSec st board compound data).trace.all nodeSectionKind = true := by
  simp only [runNodesSec]
  split
  · rfl
  · split
    · rfl
    · exact runSteps_trace_kind _ _ (nodeStep_trace_kind board compound) _ _

theorem connStep_trace_kind (board : String) (compound : PNode)
    (st : HostState) (e : JVal) :
    (connStep board compound st e).trace.all connSectionKind = true := by
  simp only [connStep]
  repeat' split
  all_goals first
    | rfl
    | exact attrConnect_trace_kind _ _ _

theorem runConnsSec_trace_kind (st : HostState) (board : String)
    (compound : PNode) (data : JVal) :
    (runConnsSec st board compound data).trace.all connSectionKind = true := by
  simp only [runConnsSec]
  split
  · rfl
  · split
    · rfl
    · exact runSteps_trace_kind _ _ (connStep_trace_kind board compound) _ _

theorem valueStep_trace_kind (board : String) (compound : PNode)
    (st : HostState) (e : JVal) :
    (valueStep board compound st e).trace.all valueSectionKind = true := by
  simp only [valueStep]
  repeat' split
  all_goals first
    | rfl
    | exact attrSet_trace_kind _ _ _

theorem runValuesSec_trace_kind (st : HostState) (board : String)
    (compound : PNode) (data : JVal) :
    (runValuesSec st board compound data).trace.all valueSectionKind = true := by
  simp only [runValuesSec]
  split
  · rfl
  · split
    · rfl
    · exact runSteps_trace_kind _ _ (valueStep_trace_kind board compound) _ _

theorem createMainCompound_trace_kind (st : HostState) (board : String) :
    (createMainCompound st board).trace.all nodeSectionKind = true :=
  nodeConstruct_trace_kind _ _ _ _ _

/-- A successful import went through the replay of the (truthy) last
compound description. -/
theorem fromJson_success_replay (st : HostState) (board : String)
    (fd : Option JVal) (x : PNode)
    (h : (fromJson st board fd).val = .ok (some x)) :
    ∃ desc, desc.truthy = true ∧
      fromJson st board fd = replayCompound st board desc := by
  cases hg : pyGetD (fd.getD (.jobj [])) "compounds" (.jarr [.jnull]) with
  | error er =>
    simp only [fromJson, hg] at h
    simp at h
  | ok comps =>
    cases hl : pyLastItem comps with
    | error er =>
      simp only [fromJson, hg, hl] at h
      simp at h
    | ok desc =>
      cases htr : desc.truthy with
      | false =>
        simp only [fromJson, hg, hl, htr] at h
        simp at h
      | true =>
        refine ⟨desc, htr, ?_⟩
        simp only [fromJson, hg, hl, htr]
        simp

/-- C4: a successful `from_json` replay decomposes the host-call trace
into the compound-creation prefix followed by the four sections — ports,
nodes, connections, values — in that order, threaded through the evolving
host state; each section issues only its own kind of call (in particular,
every node creation lies in the nodes section, every connect in the
connections section, every value assignment in the values section, so the
sections are order-preserving as the claim states); and `runSteps`
replays the entries of a section in listed order, each entry appending
its trace after the previous ones. -/
theorem c4_from_json_order (st : HostState) (board : String)
    (fd : Option JVal) (x : PNode)
    (h : (fromJson st board fd).val = .ok (some x)) :
    (∃ desc compound,
      (createMainCompound st board).val = .ok compound ∧
      (let rc := createMainCompound st board
       let rp := runPortsSec rc.st compound desc
       let rn := runNodesSec rp.st board compound desc
       let rcn := runConnsSec rn.st board compound desc
       let rv := runValuesSec rcn.st board compound desc
       (fromJson st board fd).trace =
         rc.trace ++ rp.trace ++ rn.trace ++ rcn.trace ++ rv.trace ∧
       (∀ c ∈ rc.trace, nodeSectionKind c = true) ∧
       (∀ c ∈ rp.trace, isCreatePortCall c = true) ∧
       (∀ c ∈ rn.trace, nodeSectionKind c = true) ∧
       (∀ c ∈ rcn.trace, connSectionKind c = true) ∧
       (∀ c ∈ rv.trace, valueSectionKind c = true))) ∧
    (∀ (step : HostState → JVal → Res Unit) (stx : HostState) (e : JVal)
        (rest : List JVal),
      (runSteps step stx (e :: rest)).trace =
        (step stx e).trace ++
          (match (step stx e).val with
           | .error _ => []
           | .ok _ => (runSteps step (step stx e).st rest).trace)) := by
  constructor
  · obtain ⟨desc, htr, heq⟩ := fromJson_success_replay st board fd x h
    rw [heq] at h ⊢
    cases hrc : (createMainCompound st board).val with
    | error er =>
      simp only [replayCompound, hrc] at h
      simp at h
    | ok compound =>
      cases hrp : (runPortsSec (createMainCompound st board).st compound desc).val with
      | error er =>
        simp only [replayCompound, hrc, hrp] at h
        simp at h
      | ok u1 =>
        cases hrn : (runNodesSec
            (runPortsSec (createMainCompound st board).st compound desc).st
            board compound desc).val with
        | error er =>
          simp only [replayCompound, hrc, hrp, hrn] at h
          simp at h
        | ok u2 =>
          cases hrcn : (runConnsSec
              (runNodesSec
                (runPortsSec (createMainCompound st board).st compound desc).st
                board compound desc).st board compound desc).val with
          | error er =>
            simp only [replayCompound, hrc, hrp, hrn, hrcn] at h
            simp at h
          | ok u3 =>
            cases hrv : (runValuesSec
                (runConnsSec
                  (runNodesSec
                    (runPortsSec (createMainCompound st board).st compound
                      desc).st board compound desc).st
                  board compound desc).st board compound desc).val with
            | error er =>
              simp only [replayCompound, hrc, hrp, hrn, hrcn, hrv] at h
              simp at h
            | ok u4 =>
              refine ⟨desc, compound, rfl, ?_, ?_, ?_, ?_, ?_, ?_⟩
              · simp only [replayCompound, hrc, hrp, hrn, hrcn, hrv]
              · exact List.all_eq_true.mp (createMainCompound_trace_kind st board)
              · exact List.all_eq_true.mp (runPortsSec_trace_kind _ _ _)
              · exact List.all_eq_true.mp (runNodesSec_trace_kind _ _ _ _)
              · exact List.all_eq_true.mp (runConnsSec_trace_kind _ _ _ _)
              · exact List.all_eq_true.mp (runValuesSec_trace_kind _ _ _ _)
  · intro step stx e rest
    cases hv : (step stx e).val <;> simp [runSteps, hv]

/-- A concrete document exercising all four sections. -/
def jEx2 : JVal :=
  .jobj [("compounds", .jarr [.jobj [
    ("ports", .jarr [.jobj [("portName", .jstr "out"),
      ("portDirection", .jstr "output"), ("portType", .jstr "auto")]]),
    ("compoundNodes", .jarr [.jobj [("nodeName", .jnull),
      ("nodeType", .jstr "add")]]),
    ("connections", .jarr [.jobj [("source", .jstr "a.o"),
      ("target", .jstr "b.i")]]),
    ("values", .jarr [.jobj [("valueName", .jstr "n.p"),
      ("valueType", .jstr "string"), ("value", .jstr "hello")]])]])]

/-- Witness for C4: a non-trivial import succeeds and its trace
decomposes into the ordered sections. -/
theorem c4_from_json_order_witness :
    ((fromJson stEx "b" (some jEx2)).val =
      .ok (some (PNode.mk "b" "/paintDelta" true))) ∧
    ((∃ desc compound,
      (createMainCompound stEx "b").val = .ok compound ∧
      (let rc := createMainCompound stEx "b"
       let rp := runPortsSec rc.st compound desc
       let rn := runNodesSec rp.st "b" compound desc
       let rcn := runConnsSec rn.st "b" compound desc
       let rv := runValuesSec rcn.st "b" compound desc
       (fromJson stEx "b" (some jEx2)).trace =
         rc.trace ++ rp.trace ++ rn.trace ++ rcn.trace ++ rv.trace ∧
       (∀ c ∈ rc.trace, nodeSectionKind c = true) ∧
       (∀ c ∈ rp.trace, isCreatePortCall c = true) ∧
       (∀ c ∈ rn.trace, nodeSectionKind c = true) ∧
       (∀ c ∈ rcn.trace, connSectionKind c = true) ∧
       (∀ c ∈ rv.trace, valueSectionKind c = true))) ∧
    (∀ (step : HostState → JVal → Res Unit) (stx : HostState) (e : JVal)
        (rest : List JVal),
      (runSteps step stx (e :: rest)).trace =
        (step stx e).trace ++
          (match (step stx e).val with
           | .error _ => []
           | .ok _ => (runSteps step (step stx e).st rest).trace))) :=
  ⟨by rfl,
   c4_from_json_order stEx "b" (some jEx2) (PNode.mk "b" "/paintDelta" true)
     (by rfl)⟩

end Pyfrost
